import Mathlib

set_option linter.dupNamespace false

namespace AudioFileOgg

/-!
# AudioFileOgg: the Ogg/Vorbis export session of LMMS

A shallow embedding of `src/core/audio/AudioFileOgg.cpp`.

The Vorbis encoder, the Ogg multiplexer, the Qt string conversion, the random
generator and the output file are collaborators outside the translation unit.
Their answers are collected in a `World`; every call made to them is appended,
in program order, to the `trace` of the session.  A `std::string` is a Lean
`String` read one character per byte.  The sample values copied into the
analysis buffer by `writeBuffer` never influence control flow and are left out;
only the frame count is kept.

Each draining loop of the source (`ogg_stream_flush`, `vorbis_analysis_blockout`,
`vorbis_bitrate_flushpacket`, `ogg_stream_pageout`) runs until the library
answers 0.  The library holds finitely many packets, so the answers of one loop
form a finite list; the model iterates over that list and is total.  A library
that never answers 0 is outside the model.
-/

/-- An `ogg_page`: header and body segments with their byte lengths; `eos` is
the answer of `ogg_page_eos` on the page. -/
structure Page where
  header : List Nat
  header_len : Int
  body : List Nat
  body_len : Int
  eos : Bool
deriving DecidableEq

/-- An `ogg_packet`: one of the three header packets filled in by
`vorbis_analysis_headerout`, or a packet left in `m_op` by
`vorbis_bitrate_flushpacket`. -/
inductive Packet where
  | header_main
  | header_comments
  | header_codebooks
  | m_op (bytes : List Nat)
deriving DecidableEq

/-- The `vorbis_comment` filled in by `startEncoding`. -/
structure VorbisComment where
  user_comments : List String
  comment_lengths : List Nat
  comments : Nat
  vendor : Option String
deriving DecidableEq

/-- Request codes passed to `vorbis_encode_ctl`. -/
inductive EncodeCtl where
  | OV_ECTL_RATEMANAGE_SET
  | OV_ECTL_RATEMANAGE_AVG
deriving DecidableEq

/-- One call to a collaborator, with its arguments (and, for the draining
calls, the answer that steers the loop). -/
inductive Event where
  | vorbis_info_init
  | vorbis_encode_setup_managed (channels rate max_bitrate nominal_bitrate min_bitrate : Int)
  | printf (msg : String)
  | vorbis_info_clear
  | vorbis_encode_ctl (request : EncodeCtl)
  | vorbis_encode_setup_init
  | vorbis_analysis_init
  | vorbis_block_init
  | qsrand
  | ogg_stream_init (serialno : Int)
  | vorbis_analysis_headerout (vc : VorbisComment)
  | ogg_stream_packetin (p : Packet)
  | ogg_stream_flush (result : Option Page)
  | writeData (data : List Nat) (len : Int)
  | vorbis_analysis_buffer (vals : Int)
  | vorbis_analysis_wrote (vals : Int)
  | vorbis_analysis_blockout (result : Bool)
  | vorbis_analysis
  | vorbis_bitrate_addblock
  | vorbis_bitrate_flushpacket (result : Option Packet)
  | ogg_stream_pageout (result : Option Page)
  | ogg_stream_clear
  | vorbis_block_clear
  | vorbis_dsp_clear
deriving DecidableEq

/-- The packets of one analysed block: each packet comes with the pages that
successive `ogg_stream_pageout` calls return once it has been handed in. -/
abbrev BlockScript := List (Packet × List Page)

/-- The collaborators of one session.  Answers may depend on everything that
happened before (the trace at the time of the call). -/
structure World where
  /-- `QString::toLocal8Bit` followed by the conversion to `std::string`. -/
  toLocal8Bit : String → String
  /-- The constant `BYTES_PER_SAMPLE` of the project headers. -/
  BYTES_PER_SAMPLE : Int
  /-- Return code of `vorbis_encode_setup_managed`; non-zero reports invalid
  parameters. -/
  vorbis_encode_setup_managed : Int → Int → Int → Int → Int → Int
  /-- The value returned by `qrand()`. -/
  qrand : Int
  /-- The pages `ogg_stream_flush` returns, in order, before it answers 0. -/
  flushScript : List Event → List Page
  /-- The blocks `vorbis_analysis_blockout` yields during one `writeBuffer`
  call, before it answers something other than 1. -/
  drainScript : List Event → List BlockScript
  /-- Return value of `writeData(data, len)` on the output file. -/
  writeData : List Event → List Nat → Int → Int

/-- The `OutputSettings` object handed to the constructor by `const &`: the
sample rate it was built with, the tags, and the values of the accessors
`nominalBitrate()`, `minBitrate()` and `maxBitrate()`, which are declared in a
header outside the sources at hand.  Bitrates are kbps; the products with 1000
are formed in `int`, where a `bitrate_t` value cannot make them wrap, so they
are plain integer products here. -/
structure OutputSettings where
  sampleRate : Int
  title : String
  artist : String
  album : String
  genre : String
  year : String
  isVariableBitRate : Bool
  nominalBitrate : Int
  minBitrate : Int
  maxBitrate : Int
deriving DecidableEq

/-- The state of an `AudioFileOgg` object.  `channels` and `sampleRate` are
the fields of the device base class read by `channels()` and `sampleRate()`;
the rate of the output settings is the separate `outputSettings.sampleRate`. -/
structure Session where
  outputSettings : OutputSettings
  channels : Int
  sampleRate : Int
  m_ok : Bool
  m_channels : Int
  m_rate : Int
  m_serialNo : Int
  m_comments : Option VorbisComment
  m_og : Page
  trace : List Event
deriving DecidableEq

/-- Record a call to a collaborator. -/
def log (e : Event) (s : Session) : Session :=
  { s with trace := s.trace ++ [e] }

/-- Modelled from the spec: `setSampleRate`, declared outside the sources at
hand, writes the corrected rate back so that `sampleRate()` observes it.  It is
called on the object itself, a member of the device base class, and stores the
rate there; the output settings are not written. -/
def setSampleRate (r : Int) (s : Session) : Session :=
  { s with sampleRate := r }

def cool_comment : String := "Cool=This song has been made using LMMS"

def max_comments : Nat := 10

/-- Lines 78-92 of `startEncoding`: the `comments` vector. -/
def buildComments (w : World) (o : OutputSettings) : List String :=
  let comments := [cool_comment]
  let comments := if o.title.length ≠ 0 then
    comments ++ ["TITLE=" ++ w.toLocal8Bit o.title] else comments
  let comments := if o.artist.length ≠ 0 then
    comments ++ ["ARTIST=" ++ w.toLocal8Bit o.artist] else comments
  let comments := if o.album.length ≠ 0 then
    comments ++ ["ALBUM=" ++ w.toLocal8Bit o.album] else comments
  let comments := if o.genre.length ≠ 0 then
    comments ++ ["GENRE=" ++ w.toLocal8Bit o.genre] else comments
  let comments := if o.year.length ≠ 0 then
    comments ++ ["YEAR=" ++ w.toLocal8Bit o.year] else comments
  if comments.length > max_comments then comments.take max_comments else comments

/-- Lines 94-104 of `startEncoding`: the `vorbis_comment` over the vector. -/
def buildVorbisComment (comments : List String) : VorbisComment :=
  { user_comments := comments
    comment_lengths := comments.map String.length
    comments := comments.length
    vendor := none }

/-- The value of `0xD0000000 + qrand() % 0x0FFFFFFF`: the remainder is taken
on `int` (truncating), the sum on 32-bit `unsigned`. -/
def serialNo (r : Int) : Int :=
  (0xD0000000 + Int.tmod r 0x0FFFFFFF) % 2 ^ 32

/-- The member function `writePage`: header segment, then body segment. -/
def writePage (w : World) (s : Session) : Int × Session :=
  let written := w.writeData s.trace s.m_og.header s.m_og.header_len
  let s := log (.writeData s.m_og.header s.m_og.header_len) s
  let written := written + w.writeData s.trace s.m_og.body s.m_og.body_len
  let s := log (.writeData s.m_og.body s.m_og.body_len) s
  (written, s)

/-- The loop `while( !eos )` of `writeBuffer` (lines 239-261), run on the pages
that `ogg_stream_pageout` returns.  The first component is `none` when the
function returned from inside the loop, and the value of `eos` otherwise. -/
def pageLoop (w : World) : List Page → Bool → Session → Option Bool × Session
  | _, true, s => (some true, s)
  | [], false, s => (some false, log (.ogg_stream_pageout none) s)
  | pg :: rest, false, s =>
    let s := log (.ogg_stream_pageout (some pg)) { s with m_og := pg }
    let r := writePage w s
    if r.1 ≠ r.2.m_og.header_len + r.2.m_og.body_len then
      (none, log (.printf "failed writing to outstream\n") r.2)
    else
      pageLoop w rest (if r.2.m_og.eos then true else false) r.2

/-- The loop `while( vorbis_bitrate_flushpacket( &m_vd, &m_op ) )`
(lines 231-262). -/
def packetLoop (w : World) : BlockScript → Bool → Session → Option Bool × Session
  | [], eos, s => (some eos, log (.vorbis_bitrate_flushpacket none) s)
  | (op, pages) :: rest, eos, s =>
    let s := log (.vorbis_bitrate_flushpacket (some op)) s
    let s := log (.ogg_stream_packetin op) s
    match pageLoop w pages eos s with
    | (none, s) => (none, s)
    | (some eos, s) => packetLoop w rest eos s

/-- The loop `while( vorbis_analysis_blockout( &m_vd, &m_vb ) == 1 )`
(lines 225-263). -/
def blockLoop (w : World) : List BlockScript → Bool → Session → Option Bool × Session
  | [], eos, s => (some eos, log (.vorbis_analysis_blockout false) s)
  | block :: rest, eos, s =>
    let s := log (.vorbis_analysis_blockout true) s
    let s := log .vorbis_analysis s
    let s := log .vorbis_bitrate_addblock s
    match packetLoop w block eos s with
    | (none, s) => (none, s)
    | (some eos, s) => blockLoop w rest eos s

/-- The member function `writeBuffer`, for a batch of `_frames` frames. -/
def writeBuffer (w : World) (_frames : Int) (s : Session) : Session :=
  let eos := false
  let s := log (.vorbis_analysis_buffer (_frames * w.BYTES_PER_SAMPLE * s.channels)) s
  let s := log (.vorbis_analysis_wrote _frames) s
  (blockLoop w (w.drainScript s.trace) eos s).2

/-- The member function `finishEncoding`. -/
def finishEncoding (w : World) (s : Session) : Session :=
  if s.m_ok then
    let s := writeBuffer w 0 s
    let s := log .ogg_stream_clear s
    let s := log .vorbis_block_clear s
    let s := log .vorbis_dsp_clear s
    log .vorbis_info_clear s
  else s

/-- The loop `while( ( result = ogg_stream_flush( &m_os, &m_og ) ) )` that ends
`startEncoding` (lines 183-198), run on the pages the forced flush returns. -/
def flushLoop (w : World) : List Page → Session → Bool × Session
  | [], s => (true, log (.ogg_stream_flush none) s)
  | pg :: rest, s =>
    let s := log (.ogg_stream_flush (some pg)) { s with m_og := pg }
    let r := writePage w s
    if r.1 ≠ r.2.m_og.header_len + r.2.m_og.body_len then
      (false, finishEncoding w r.2)
    else
      flushLoop w rest r.2

/-- The three bitrate arguments `startEncoding` computes for
`vorbis_encode_setup_managed` (lines 108-116 and 132-134), in call order:
maximum, nominal, minimum. -/
def bitrateArgs (o : OutputSettings) : Int × Int × Int :=
  let useVariableBitRate := o.isVariableBitRate
  let minimalBitrate := if useVariableBitRate then o.minBitrate else o.nominalBitrate
  let maximumBitrate := if useVariableBitRate then o.maxBitrate else o.nominalBitrate
  (if maximumBitrate > 0 then maximumBitrate * 1000 else -1,
   o.nominalBitrate * 1000,
   if minimalBitrate > 0 then minimalBitrate * 1000 else -1)

/-- The member function `startEncoding`. -/
def startEncoding (w : World) (s : Session) : Bool × Session :=
  let vc := buildVorbisComment (buildComments w s.outputSettings)
  let s := { s with m_channels := s.channels }
  let useVariableBitRate := s.outputSettings.isVariableBitRate
  let args := bitrateArgs s.outputSettings
  let s := { s with m_rate := s.sampleRate }
  let s := if s.m_rate > 48000 then setSampleRate 48000 { s with m_rate := 48000 } else s
  let s := { s with m_comments := some vc }
  let s := log .vorbis_info_init s
  let result := w.vorbis_encode_setup_managed s.m_channels s.m_rate args.1 args.2.1 args.2.2
  let s := log (.vorbis_encode_setup_managed s.m_channels s.m_rate args.1 args.2.1 args.2.2) s
  if result ≠ 0 then
    let s := log (.printf "Mode initialization failed: invalid parameters for bitrate\n") s
    let s := log .vorbis_info_clear s
    (false, s)
  else
    let s := log (.vorbis_encode_ctl
      (if useVariableBitRate then .OV_ECTL_RATEMANAGE_SET else .OV_ECTL_RATEMANAGE_AVG)) s
    let s := log .vorbis_encode_setup_init s
    let s := log .vorbis_analysis_init s
    let s := log .vorbis_block_init s
    let s := log .qsrand s
    let s := { s with m_serialNo := serialNo w.qrand }
    let s := log (.ogg_stream_init s.m_serialNo) s
    let s := log (.vorbis_analysis_headerout vc) s
    let s := log (.ogg_stream_packetin .header_main) s
    let s := log (.ogg_stream_packetin .header_comments) s
    let s := log (.ogg_stream_packetin .header_codebooks) s
    flushLoop w (w.flushScript s.trace) s

/-- The constructor: `m_ok = successful = outputFileOpened() && startEncoding()`.
The session passed in is the object as the base-class constructor left it;
its `m_ok` has not been assigned yet. -/
def AudioFileOgg (w : World) (outputFileOpened : Bool) (s : Session) : Bool × Session :=
  if outputFileOpened then
    let r := startEncoding w s
    (r.1, { r.2 with m_ok := r.1 })
  else
    (false, { s with m_ok := false })

/-- The destructor `~AudioFileOgg`. -/
def destructor (w : World) (s : Session) : Session :=
  finishEncoding w s

/-! ## Vocabulary of the statements -/

/-- Everything in a session except the trace and the current page `m_og`. -/
def Session.config (s : Session) :
    OutputSettings × Int × Int × Bool × Int × Int × Int × Option VorbisComment :=
  (s.outputSettings, s.channels, s.sampleRate, s.m_ok, s.m_channels, s.m_rate,
    s.m_serialNo, s.m_comments)

/-- The return code the mode initializer gives for the arguments
`startEncoding` passes; `startEncoding` goes on to header emission exactly
when it is 0. -/
def setupResult (w : World) (s : Session) : Int :=
  w.vorbis_encode_setup_managed s.channels (min s.sampleRate 48000)
    (bitrateArgs s.outputSettings).1 (bitrateArgs s.outputSettings).2.1
    (bitrateArgs s.outputSettings).2.2

/-- The comment list as the specification words it: the product entry, then
one `KEY=value` entry per non-empty tag in the order title, artist, album,
genre, year. -/
def expectedComments (w : World) (o : OutputSettings) : List String :=
  cool_comment ::
    (([("TITLE", o.title), ("ARTIST", o.artist), ("ALBUM", o.album), ("GENRE", o.genre),
        ("YEAR", o.year)].filter (fun kv => kv.2 ≠ "")).map
      (fun kv => kv.1 ++ "=" ++ w.toLocal8Bit kv.2))

/-- The message `writeBuffer` prints before its early return. -/
def failMsg : String := "failed writing to outstream\n"

/-- The call that writes the header segment of a page. -/
def headerWrite (pg : Page) : Event := .writeData pg.header pg.header_len

/-- The call that writes the body segment of a page. -/
def bodyWrite (pg : Page) : Event := .writeData pg.body pg.body_len

/-- What `writePage` returns for page `pg` when `hist` is the trace up to and
including the call that produced the page. -/
def pageTotal (w : World) (hist : List Event) (pg : Page) : Int :=
  w.writeData hist pg.header pg.header_len +
    w.writeData (hist ++ [headerWrite pg]) pg.body pg.body_len

/-- The events of writing out the given pages as forced-flush pages: each page
is obtained from `ogg_stream_flush` and written header first, body second. -/
def headerWrites (pages : List Page) : List Event :=
  pages.flatMap fun pg => [.ogg_stream_flush (some pg), headerWrite pg, bodyWrite pg]

/-- The four releases of `finishEncoding`, in program order. -/
def releases : List Event :=
  [.ogg_stream_clear, .vorbis_block_clear, .vorbis_dsp_clear, .vorbis_info_clear]

/-- A write to the output file. -/
def Event.isWrite : Event → Bool
  | .writeData _ _ => true
  | _ => false

/-- A packet handed to the container packetizer. -/
def Event.isPacketin : Event → Bool
  | .ogg_stream_packetin _ => true
  | _ => false

/-- A call to `ogg_stream_pageout`, the source of data pages. -/
def Event.isPageout : Event → Bool
  | .ogg_stream_pageout _ => true
  | _ => false

/-- A call to `ogg_stream_flush`, the source of header pages. -/
def Event.isFlush : Event → Bool
  | .ogg_stream_flush _ => true
  | _ => false

/-- A release of a codec resource. -/
def Event.isRelease : Event → Bool
  | .ogg_stream_clear => true
  | .vorbis_block_clear => true
  | .vorbis_dsp_clear => true
  | .vorbis_info_clear => true
  | _ => false

/-- The trace of `t` is the trace of `s` followed by events that all satisfy `P`. -/
def Extends (P : Event → Prop) (s t : Session) : Prop :=
  ∃ ev, t.trace = s.trace ++ ev ∧ ∀ e ∈ ev, P e

/-- The events `writeBuffer` can emit. -/
def Event.isEncode : Event → Bool
  | .printf _ => true
  | .ogg_stream_packetin _ => true
  | .writeData _ _ => true
  | .vorbis_analysis_buffer _ => true
  | .vorbis_analysis_wrote _ => true
  | .vorbis_analysis_blockout _ => true
  | .vorbis_analysis => true
  | .vorbis_bitrate_addblock => true
  | .vorbis_bitrate_flushpacket _ => true
  | .ogg_stream_pageout _ => true
  | _ => false

/-- From position `n0` on, every page obtained from `ogg_stream_pageout` is
followed by the writes of its header and body, and the file took all of it. -/
def CleanFrom (w : World) (n0 : Nat) (tr : List Event) : Prop :=
  ∀ i pg, n0 ≤ i → tr[i]? = some (.ogg_stream_pageout (some pg)) →
    tr[i + 1]? = some (headerWrite pg) ∧ tr[i + 2]? = some (bodyWrite pg)
      ∧ pageTotal w (tr.take (i + 1)) pg = pg.header_len + pg.body_len

/-- A run that has not met a short write since position `n0`. -/
def Completed (w : World) (n0 : Nat) (tr : List Event) : Prop :=
  n0 ≤ tr.length ∧ CleanFrom w n0 tr ∧ Event.printf failMsg ∉ tr.drop n0

/-- A run that ended on the early return: a short page write, the message,
and nothing after. -/
def Aborted (w : World) (n0 : Nat) (tr : List Event) : Prop :=
  ∃ pre pg, tr = pre ++ [.ogg_stream_pageout (some pg), headerWrite pg, bodyWrite pg,
      .printf failMsg]
    ∧ Completed w n0 pre
    ∧ pageTotal w (pre ++ [.ogg_stream_pageout (some pg)]) pg ≠ pg.header_len + pg.body_len

/-- The status a loop hands back matches the shape of the trace. -/
def Outcome (w : World) (n0 : Nat) (r : Option Bool × Session) : Prop :=
  match r.1 with
  | some _ => Completed w n0 r.2.trace
  | none => Aborted w n0 r.2.trace

/-- The calls of a successful setup up to the header packets, in program
order. -/
def setupEvents (w : World) (s : Session) : List Event :=
  [.vorbis_info_init,
   .vorbis_encode_setup_managed s.channels (min s.sampleRate 48000)
     (bitrateArgs s.outputSettings).1 (bitrateArgs s.outputSettings).2.1
     (bitrateArgs s.outputSettings).2.2,
   .vorbis_encode_ctl (if s.outputSettings.isVariableBitRate then .OV_ECTL_RATEMANAGE_SET
     else .OV_ECTL_RATEMANAGE_AVG),
   .vorbis_encode_setup_init,
   .vorbis_analysis_init,
   .vorbis_block_init,
   .qsrand,
   .ogg_stream_init (serialNo w.qrand),
   .vorbis_analysis_headerout (buildVorbisComment (buildComments w s.outputSettings))]

/-- The three header packets in the order they are handed to the packetizer. -/
def headerPacketins : List Event :=
  [.ogg_stream_packetin .header_main, .ogg_stream_packetin .header_comments,
   .ogg_stream_packetin .header_codebooks]

/-- The events of draining the given pages: each page is obtained from
`ogg_stream_pageout` and written header first, body second. -/
def pageWrites (pages : List Page) : List Event :=
  pages.flatMap fun pg => [.ogg_stream_pageout (some pg), headerWrite pg, bodyWrite pg]

/-- None of the pages obtained from `ogg_stream_pageout` at positions `n0 ≤ i < j`
carries the end-of-stream flag. -/
def NoEosBefore (n0 j : Nat) (tr : List Event) : Prop :=
  ∀ i pg, n0 ≤ i → i < j → tr[i]? = some (.ogg_stream_pageout (some pg)) → pg.eos = false

/-- From position `n0` on, a page with the end-of-stream flag is followed by
its own two writes and then by no page request and no write. -/
def Sealed (n0 : Nat) (tr : List Event) : Prop :=
  ∀ i pg, n0 ≤ i → tr[i]? = some (.ogg_stream_pageout (some pg)) → pg.eos = true →
    ∀ j e, i + 3 ≤ j → tr[j]? = some e → e.isPageout = false ∧ e.isWrite = false

/-- A page with the end-of-stream flag has been obtained at or after `n0`. -/
def EosSeen (n0 : Nat) (tr : List Event) : Prop :=
  ∃ i pg, n0 ≤ i ∧ tr[i]? = some (.ogg_stream_pageout (some pg)) ∧ pg.eos = true

/-- The events after position `j` start with a run of drained pages that ends
because the multiplexer reports none available or because the last page
carries the end-of-stream flag. -/
def DrainedOK (tr : List Event) (j : Nat) : Prop :=
  ∃ pages rest, tr.drop (j + 1) = pageWrites pages ++ rest ∧
    ((∃ rest1, rest = .ogg_stream_pageout none :: rest1)
      ∨ (∃ pg, pages.getLast? = some pg ∧ pg.eos = true))

/-- As `DrainedOK`, with the third way a run of drained pages can end: the
early return after a short write, which ends the call. -/
def Drained (tr : List Event) (j : Nat) : Prop :=
  ∃ pages rest, tr.drop (j + 1) = pageWrites pages ++ rest ∧
    ((∃ rest1, rest = .ogg_stream_pageout none :: rest1)
      ∨ (∃ pg, pages.getLast? = some pg ∧ pg.eos = true)
      ∨ (pages ≠ [] ∧ rest = [.printf failMsg]))

/-- The value of the local `eos` when `writeBuffer` leaves its loops; `none`
when it returned early. -/
def writeBufferEos (w : World) (_frames : Int) (s : Session) : Option Bool :=
  let s := log (.vorbis_analysis_buffer (_frames * w.BYTES_PER_SAMPLE * s.channels)) s
  let s := log (.vorbis_analysis_wrote _frames) s
  (blockLoop w (w.drainScript s.trace) false s).1

/-- What holds of the trace between two page requests of a `writeBuffer` call
started at position `n0`, given the current value of the local `eos`. -/
def PageInv (n0 : Nat) (eos : Bool) (tr : List Event) : Prop :=
  n0 ≤ tr.length ∧ Sealed n0 tr ∧ (eos = false → NoEosBefore n0 tr.length tr)
    ∧ (eos = true → EosSeen n0 tr)

/-- Every packet handed in at or after `n0` before any end-of-stream page has
been followed by a completed run of drained pages. -/
def DrainsOK (n0 : Nat) (tr : List Event) : Prop :=
  ∀ j op, n0 ≤ j → tr[j]? = some (.ogg_stream_packetin op) → NoEosBefore n0 j tr →
    DrainedOK tr j

/-- As `DrainsOK`, allowing the last run to end on the early return. -/
def Drains (n0 : Nat) (tr : List Event) : Prop :=
  ∀ j op, n0 ≤ j → tr[j]? = some (.ogg_stream_packetin op) → NoEosBefore n0 j tr →
    Drained tr j

/-- The trace of a call that took the early return: up to the short write no
page carried the end-of-stream flag. -/
def AbortShape (w : World) (n0 : Nat) (tr : List Event) : Prop :=
  ∃ pre pg, tr = pre ++ [.ogg_stream_pageout (some pg), headerWrite pg, bodyWrite pg,
      .printf failMsg]
    ∧ n0 ≤ pre.length ∧ NoEosBefore n0 pre.length pre
    ∧ pageTotal w (pre ++ [.ogg_stream_pageout (some pg)]) pg ≠ pg.header_len + pg.body_len

/-- What `pageLoop` hands back, in terms of `PageInv`. -/
def PageOutcome (w : World) (n0 : Nat) (r : Option Bool × Session) : Prop :=
  match r.1 with
  | some eos => PageInv n0 eos r.2.trace
  | none => AbortShape w n0 r.2.trace

/-- What `packetLoop` and `blockLoop` hand back. -/
def EosOutcome (w : World) (n0 : Nat) (r : Option Bool × Session) : Prop :=
  match r.1 with
  | some eos => PageInv n0 eos r.2.trace ∧ DrainsOK n0 r.2.trace
  | none => AbortShape w n0 r.2.trace ∧ Drains n0 r.2.trace

/-! ## Sample collaborators and sessions -/

/-- A header page of 4 + 2 bytes. -/
def samplePage : Page :=
  { header := [79, 103, 103, 83], header_len := 4, body := [1, 2], body_len := 2, eos := false }

/-- A data page of 4 + 3 bytes carrying the end-of-stream flag. -/
def lastPage : Page :=
  { header := [79, 103, 103, 83], header_len := 4, body := [7, 8, 9], body_len := 3, eos := true }

/-- A codec that accepts every mode, flushes one header page and yields, on
each `writeBuffer`, one block with one packet completing one page; the file
takes every byte. -/
def sampleWorld : World :=
  { toLocal8Bit := id
    BYTES_PER_SAMPLE := 4
    vorbis_encode_setup_managed := fun _ _ _ _ _ => 0
    qrand := 12345
    flushScript := fun _ => [samplePage]
    drainScript := fun _ => [[(Packet.m_op [5], [lastPage])]]
    writeData := fun _ _ len => len }

/-- The same codec over a file that accepts no byte. -/
def fullDiskWorld : World :=
  { sampleWorld with writeData := fun _ _ _ => 0 }

/-- The same codec rejecting every mode. -/
def rejectingWorld : World :=
  { sampleWorld with vorbis_encode_setup_managed := fun _ _ _ _ _ => -131 }

/-- Constant 128 kbps, no tags. -/
def sampleSettings : OutputSettings :=
  { sampleRate := 44100, title := "", artist := "", album := "", genre := "", year := ""
    isVariableBitRate := false, nominalBitrate := 128, minBitrate := 64, maxBitrate := 192 }

/-- A freshly constructed stereo 44.1 kHz object, `m_ok` still unset. -/
def sampleSession : Session :=
  { outputSettings := sampleSettings
    channels := 2
    sampleRate := 44100
    m_ok := false
    m_channels := 0
    m_rate := 0
    m_serialNo := 0
    m_comments := none
    m_og := { header := [], header_len := 0, body := [], body_len := 0, eos := false }
    trace := [] }

/-- Constant bitrate with nominal value 0. -/
def zeroBitrateSession : Session :=
  { sampleSession with outputSettings := { sampleSettings with nominalBitrate := 0 } }

/-- Variable bitrate with only the nominal value set. -/
def nominalOnlySession : Session :=
  { sampleSession with outputSettings :=
      { sampleSettings with isVariableBitRate := true, nominalBitrate := 160, minBitrate := 0,
                            maxBitrate := 0 } }

/-- A session right after a successful construction over `sampleWorld`. -/
def readySession : Session :=
  (AudioFileOgg sampleWorld true sampleSession).2

/-- A codec with two header pages and, per `writeBuffer`, two blocks of two
packets; the file is full once 11 calls have been recorded. -/
def busyWorld : World :=
  { sampleWorld with
    flushScript := fun _ => [samplePage, samplePage]
    drainScript := fun _ =>
      [[(Packet.m_op [5], [samplePage, samplePage]), (Packet.m_op [6], [samplePage])],
       [(Packet.m_op [7], [lastPage])]]
    writeData := fun hist _ len => if hist.length < 11 then len else 0 }

/-- A codec whose first data page already carries the end-of-stream flag while
more pages, packets and blocks are still to come; the file takes every byte. -/
def eosWorld : World :=
  { sampleWorld with
    drainScript := fun _ =>
      [[(Packet.m_op [5], [lastPage, samplePage]), (Packet.m_op [6], [samplePage])],
       [(Packet.m_op [7], [samplePage])]] }

/-! ## Fields the draining code never touches -/

theorem config_log (e : Event) (s : Session) : (log e s).config = s.config := rfl

theorem config_pageLoop (w : World) (pages : List Page) (eos : Bool) (s : Session) :
    (pageLoop w pages eos s).2.config = s.config := by
  induction pages generalizing eos s with
  | nil => cases eos <;> rfl
  | cons pg rest ih =>
    cases eos
    · simp only [pageLoop]
      split
      · rfl
      · rw [ih]; rfl
    · rfl

theorem config_packetLoop (w : World) (block : BlockScript) (eos : Bool) (s : Session) :
    (packetLoop w block eos s).2.config = s.config := by
  induction block generalizing eos s with
  | nil => rfl
  | cons head rest ih =>
    obtain ⟨op, pages⟩ := head
    simp only [packetLoop]
    have h := config_pageLoop w pages eos
      (log (.ogg_stream_packetin op) (log (.vorbis_bitrate_flushpacket (some op)) s))
    split
    · next s1 heq => rw [heq] at h; exact h
    · next eos1 s1 heq => rw [heq] at h; rw [ih]; exact h

theorem config_blockLoop (w : World) (blocks : List BlockScript) (eos : Bool) (s : Session) :
    (blockLoop w blocks eos s).2.config = s.config := by
  induction blocks generalizing eos s with
  | nil => rfl
  | cons block rest ih =>
    simp only [blockLoop]
    have h := config_packetLoop w block eos
      (log .vorbis_bitrate_addblock (log .vorbis_analysis (log (.vorbis_analysis_blockout true) s)))
    split
    · next s1 heq => rw [heq] at h; exact h
    · next eos1 s1 heq => rw [heq] at h; rw [ih]; exact h

theorem config_writeBuffer (w : World) (n : Int) (s : Session) :
    (writeBuffer w n s).config = s.config := by
  unfold writeBuffer
  exact config_blockLoop w _ _ _

theorem config_finishEncoding (w : World) (s : Session) :
    (finishEncoding w s).config = s.config := by
  unfold finishEncoding
  split
  · simp only [config_log]; exact config_writeBuffer w 0 s
  · rfl

theorem config_flushLoop (w : World) (pages : List Page) (s : Session) :
    (flushLoop w pages s).2.config = s.config := by
  induction pages generalizing s with
  | nil => rfl
  | cons pg rest ih =>
    simp only [flushLoop]
    split
    · rw [config_finishEncoding]; rfl
    · rw [ih]; rfl

theorem config_startEncoding (w : World) (s : Session) :
    (startEncoding w s).2.config =
      (s.outputSettings, s.channels, min s.sampleRate 48000, s.m_ok, s.channels,
        min s.sampleRate 48000,
        if setupResult w s = 0 then serialNo w.qrand else s.m_serialNo,
        some (buildVorbisComment (buildComments w s.outputSettings))) := by
  unfold startEncoding setupResult
  by_cases hr : s.sampleRate > 48000
  · have hmin : min s.sampleRate 48000 = 48000 := min_eq_right (le_of_lt hr)
    simp only [hr, if_true, hmin, setSampleRate, log]
    split
    · next h => simp [Session.config, h]
    · next h =>
      have h0 := not_not.mp h
      rw [config_flushLoop]
      simp [Session.config, h0]
  · have hmin : min s.sampleRate 48000 = s.sampleRate := min_eq_left (not_lt.mp hr)
    simp only [hr, if_false, hmin, log]
    split
    · next h => simp [Session.config, h]
    · next h =>
      have h0 := not_not.mp h
      rw [config_flushLoop]
      simp [Session.config, h0]

/-! ## Traces only grow -/

theorem Extends.refl (P : Event → Prop) (s : Session) : Extends P s s :=
  ⟨[], by simp, by simp⟩

theorem Extends.trans {P : Event → Prop} {s t u : Session}
    (h1 : Extends P s t) (h2 : Extends P t u) : Extends P s u := by
  obtain ⟨e1, he1, hp1⟩ := h1
  obtain ⟨e2, he2, hp2⟩ := h2
  refine ⟨e1 ++ e2, by rw [he2, he1, List.append_assoc], ?_⟩
  intro e he
  rcases List.mem_append.mp he with h | h
  · exact hp1 e h
  · exact hp2 e h

theorem Extends.log {P : Event → Prop} (e : Event) (s : Session) (h : P e) :
    Extends P s (log e s) :=
  ⟨[e], rfl, by simpa using h⟩

theorem Extends.mono {P Q : Event → Prop} {s t : Session} (hPQ : ∀ e, P e → Q e)
    (h : Extends P s t) : Extends Q s t := by
  obtain ⟨ev, hev, hp⟩ := h
  exact ⟨ev, hev, fun e he => hPQ e (hp e he)⟩

theorem extends_writePage (w : World) (s : Session) :
    Extends (fun e => e.isEncode = true) s (writePage w s).2 :=
  ⟨[headerWrite s.m_og, bodyWrite s.m_og], by simp [writePage, log, headerWrite, bodyWrite],
    by simp [headerWrite, bodyWrite, Event.isEncode]⟩

theorem extends_pageLoop (w : World) (pages : List Page) (eos : Bool) (s : Session) :
    Extends (fun e => e.isEncode = true) s (pageLoop w pages eos s).2 := by
  induction pages generalizing eos s with
  | nil =>
    cases eos
    · exact Extends.log (.ogg_stream_pageout none) s rfl
    · exact Extends.refl _ _
  | cons pg rest ih =>
    cases eos
    · simp only [pageLoop]
      have h1 : Extends (fun e => e.isEncode = true) s
          (log (.ogg_stream_pageout (some pg)) { s with m_og := pg }) :=
        ⟨[.ogg_stream_pageout (some pg)], rfl, by simp [Event.isEncode]⟩
      have h2 := Extends.trans h1 (extends_writePage w _)
      split
      · exact Extends.trans h2 (Extends.log (.printf "failed writing to outstream\n") _ rfl)
      · exact Extends.trans h2 (ih _ _)
    · exact Extends.refl _ _

theorem extends_packetLoop (w : World) (block : BlockScript) (eos : Bool) (s : Session) :
    Extends (fun e => e.isEncode = true) s (packetLoop w block eos s).2 := by
  induction block generalizing eos s with
  | nil => exact Extends.log (.vorbis_bitrate_flushpacket none) s rfl
  | cons head rest ih =>
    obtain ⟨op, pages⟩ := head
    simp only [packetLoop]
    have h0 : Extends (fun e => e.isEncode = true) s
        (log (.ogg_stream_packetin op) (log (.vorbis_bitrate_flushpacket (some op)) s)) :=
      Extends.trans (Extends.log (.vorbis_bitrate_flushpacket (some op)) s rfl)
        (Extends.log (.ogg_stream_packetin op) _ rfl)
    have h := Extends.trans h0 (extends_pageLoop w pages eos _)
    split
    · next s1 heq => rw [heq] at h; exact h
    · next eos1 s1 heq => rw [heq] at h; exact Extends.trans h (ih _ _)

theorem extends_blockLoop (w : World) (blocks : List BlockScript) (eos : Bool) (s : Session) :
    Extends (fun e => e.isEncode = true) s (blockLoop w blocks eos s).2 := by
  induction blocks generalizing eos s with
  | nil => exact Extends.log (.vorbis_analysis_blockout false) s rfl
  | cons block rest ih =>
    simp only [blockLoop]
    have h0 : Extends (fun e => e.isEncode = true) s
        (log .vorbis_bitrate_addblock (log .vorbis_analysis
          (log (.vorbis_analysis_blockout true) s))) :=
      Extends.trans (Extends.trans (Extends.log (.vorbis_analysis_blockout true) s rfl)
        (Extends.log .vorbis_analysis _ rfl)) (Extends.log .vorbis_bitrate_addblock _ rfl)
    have h := Extends.trans h0 (extends_packetLoop w block eos _)
    split
    · next s1 heq => rw [heq] at h; exact h
    · next eos1 s1 heq => rw [heq] at h; exact Extends.trans h (ih _ _)

theorem extends_writeBuffer (w : World) (n : Int) (s : Session) :
    Extends (fun e => e.isEncode = true) s (writeBuffer w n s) := by
  unfold writeBuffer
  exact Extends.trans
    (Extends.trans (Extends.log (.vorbis_analysis_buffer (n * w.BYTES_PER_SAMPLE * s.channels)) s rfl)
      (Extends.log (.vorbis_analysis_wrote n) _ rfl))
    (extends_blockLoop w _ _ _)

theorem extends_finishEncoding (w : World) (s : Session) :
    Extends (fun e => e.isEncode = true ∨ e.isRelease = true) s (finishEncoding w s) := by
  unfold finishEncoding
  split
  · exact Extends.trans (Extends.trans (Extends.trans (Extends.trans
      (Extends.mono (fun _ h => Or.inl h) (extends_writeBuffer w 0 s))
      (Extends.log .ogg_stream_clear _ (Or.inr rfl)))
      (Extends.log .vorbis_block_clear _ (Or.inr rfl)))
      (Extends.log .vorbis_dsp_clear _ (Or.inr rfl)))
      (Extends.log .vorbis_info_clear _ (Or.inr rfl))
  · exact Extends.refl _ _

theorem extends_flushLoop (w : World) (pages : List Page) (s : Session) :
    Extends (fun _ => True) s (flushLoop w pages s).2 := by
  induction pages generalizing s with
  | nil => exact Extends.log (.ogg_stream_flush none) s trivial
  | cons pg rest ih =>
    simp only [flushLoop]
    have h1 : Extends (fun _ => True) s
        (log (.ogg_stream_flush (some pg)) { s with m_og := pg }) :=
      ⟨[.ogg_stream_flush (some pg)], rfl, by simp⟩
    have h2 : Extends (fun _ => True) s
        (writePage w (log (.ogg_stream_flush (some pg)) { s with m_og := pg })).2 := by
      obtain ⟨ev, hev, _⟩ := extends_writePage w
        (log (.ogg_stream_flush (some pg)) { s with m_og := pg })
      exact Extends.trans h1 ⟨ev, hev, fun _ _ => trivial⟩
    split
    · obtain ⟨ev, hev, _⟩ := extends_finishEncoding w
        (writePage w (log (.ogg_stream_flush (some pg)) { s with m_og := pg })).2
      exact Extends.trans h2 ⟨ev, hev, fun _ _ => trivial⟩
    · exact Extends.trans h2 (ih _)

theorem flushLoop_keeps_start (w : World) (pages : List Page) (t : Session)
    (pre : List Event) (h : ∃ r, t.trace = pre ++ r) :
    ∃ r, (flushLoop w pages t).2.trace = pre ++ r := by
  obtain ⟨r, hr⟩ := h
  obtain ⟨ev, hev, _⟩ := extends_flushLoop w pages t
  exact ⟨r ++ ev, by rw [hev, hr, List.append_assoc]⟩

/-- Every run of `startEncoding` begins with `vorbis_info_init` and the call of
the mode initializer on the copied channel count, the clamped rate and the
three bitrate arguments. -/
theorem startEncoding_trace_begin (w : World) (s : Session) :
    ∃ rest, (startEncoding w s).2.trace = s.trace ++
      [.vorbis_info_init,
       .vorbis_encode_setup_managed s.channels (min s.sampleRate 48000)
         (bitrateArgs s.outputSettings).1 (bitrateArgs s.outputSettings).2.1
         (bitrateArgs s.outputSettings).2.2] ++ rest := by
  have hmin : (if s.sampleRate > 48000 then (48000 : Int) else s.sampleRate)
      = min s.sampleRate 48000 := by
    split
    · next h => exact (min_eq_right (le_of_lt h)).symm
    · next h => exact (min_eq_left (not_lt.mp h)).symm
  unfold startEncoding
  by_cases hr : s.sampleRate > 48000
  · simp only [hr, if_true, setSampleRate, log] at hmin ⊢
    rw [← hmin]
    split
    · exact ⟨[.printf "Mode initialization failed: invalid parameters for bitrate\n",
        .vorbis_info_clear], by simp⟩
    · apply flushLoop_keeps_start
      apply Exists.intro
      simp only [List.append_assoc, List.cons_append, List.nil_append]
      rfl
  · simp only [hr, if_false, log] at hmin ⊢
    rw [← hmin]
    split
    · exact ⟨[.printf "Mode initialization failed: invalid parameters for bitrate\n",
        .vorbis_info_clear], by simp⟩
    · apply flushLoop_keeps_start
      apply Exists.intro
      simp only [List.append_assoc, List.cons_append, List.nil_append]
      rfl

/-! ## Metadata, rate and bitrate arguments -/

theorem length_ne_zero_iff (t : String) : t.length ≠ 0 ↔ t ≠ "" := by
  constructor
  · intro h e
    subst e
    exact h rfl
  · intro h e
    apply h
    cases t with
    | mk data =>
      cases data with
      | nil => rfl
      | cons c cs => simp [String.length] at e

theorem buildComments_eq (w : World) (o : OutputSettings) :
    buildComments w o = expectedComments w o := by
  have k1 : ∀ x : String, "TITLE" ++ "=" ++ x = "TITLE=" ++ x := fun x => by
    rw [show "TITLE" ++ "=" = "TITLE=" from by decide]
  have k2 : ∀ x : String, "ARTIST" ++ "=" ++ x = "ARTIST=" ++ x := fun x => by
    rw [show "ARTIST" ++ "=" = "ARTIST=" from by decide]
  have k3 : ∀ x : String, "ALBUM" ++ "=" ++ x = "ALBUM=" ++ x := fun x => by
    rw [show "ALBUM" ++ "=" = "ALBUM=" from by decide]
  have k4 : ∀ x : String, "GENRE" ++ "=" ++ x = "GENRE=" ++ x := fun x => by
    rw [show "GENRE" ++ "=" = "GENRE=" from by decide]
  have k5 : ∀ x : String, "YEAR" ++ "=" ++ x = "YEAR=" ++ x := fun x => by
    rw [show "YEAR" ++ "=" = "YEAR=" from by decide]
  unfold buildComments expectedComments
  simp only [length_ne_zero_iff]
  by_cases h1 : o.title = "" <;> by_cases h2 : o.artist = "" <;> by_cases h3 : o.album = "" <;>
    by_cases h4 : o.genre = "" <;> by_cases h5 : o.year = "" <;>
    simp [h1, h2, h3, h4, h5, k1, k2, k3, k4, k5, max_comments, List.filter]

theorem expectedComments_length (w : World) (o : OutputSettings) :
    (expectedComments w o).length ≤ 6 := by
  unfold expectedComments
  rw [List.length_cons, List.length_map]
  have h := List.length_filter_le (fun kv : String × String => decide (kv.2 ≠ ""))
    [("TITLE", o.title), ("ARTIST", o.artist), ("ALBUM", o.album), ("GENRE", o.genre),
      ("YEAR", o.year)]
  simp only [List.length_cons, List.length_nil] at h
  omega

/-- C1. Whatever the five tags are, the comment list `startEncoding` builds and
attaches to the session is the product entry followed by one `KEY=value` entry
per non-empty tag in the order TITLE, ARTIST, ALBUM, GENRE, YEAR; its first
entry is the product entry and it has at most `max_comments` = 10 entries. -/
theorem startEncoding_comments (w : World) (s : Session) :
    (startEncoding w s).2.m_comments
        = some (buildVorbisComment (expectedComments w s.outputSettings))
      ∧ buildComments w s.outputSettings = expectedComments w s.outputSettings
      ∧ (buildComments w s.outputSettings).head? = some cool_comment
      ∧ (buildComments w s.outputSettings).length ≤ max_comments
      ∧ max_comments = 10 := by
  have hc := config_startEncoding w s
  have hm : (startEncoding w s).2.m_comments
      = some (buildVorbisComment (buildComments w s.outputSettings)) :=
    congrArg (fun c => c.2.2.2.2.2.2.2) hc
  have hl := expectedComments_length w s.outputSettings
  rw [buildComments_eq] at hm ⊢
  refine ⟨hm, rfl, rfl, ?_, rfl⟩
  unfold max_comments
  omega

/-- C7, as stated, fails for the nominal bitrate 0 in constant mode: the mode
initializer is called with maximum -1, nominal 0 and minimum -1, not with
three times 0 * 1000. -/
theorem cbr_zero_bitrate_args :
    zeroBitrateSession.outputSettings.isVariableBitRate = false
      ∧ zeroBitrateSession.outputSettings.nominalBitrate = 0
      ∧ (startEncoding sampleWorld zeroBitrateSession).2.trace.take 2
        = [.vorbis_info_init, .vorbis_encode_setup_managed 2 44100 (-1) 0 (-1)]
      ∧ Event.vorbis_encode_setup_managed 2 44100 (0 * 1000) (0 * 1000) (0 * 1000)
        ∉ (startEncoding sampleWorld zeroBitrateSession).2.trace := by
  decide

/-- C7 (amended). In constant-bitrate mode `startEncoding` calls the mode
initializer with nominal argument `b * 1000`; the maximum and minimum
arguments are `b * 1000` too when `b > 0`, and the sentinel -1 when `b ≤ 0`. -/
theorem cbr_bitrate_args (w : World) (s : Session)
    (hcbr : s.outputSettings.isVariableBitRate = false) :
    ∃ rest, (startEncoding w s).2.trace = s.trace ++
      [.vorbis_info_init,
       .vorbis_encode_setup_managed s.channels (min s.sampleRate 48000)
         (if 0 < s.outputSettings.nominalBitrate then s.outputSettings.nominalBitrate * 1000
          else -1)
         (s.outputSettings.nominalBitrate * 1000)
         (if 0 < s.outputSettings.nominalBitrate then s.outputSettings.nominalBitrate * 1000
          else -1)] ++ rest := by
  obtain ⟨rest, h⟩ := startEncoding_trace_begin w s
  refine ⟨rest, ?_⟩
  rw [h]
  simp [bitrateArgs, hcbr]

theorem cbr_bitrate_args_witness :
    sampleSession.outputSettings.isVariableBitRate = false
      ∧ ∃ rest, (startEncoding sampleWorld sampleSession).2.trace = sampleSession.trace ++
        [.vorbis_info_init,
         .vorbis_encode_setup_managed 2 44100 128000 128000 128000] ++ rest :=
  ⟨rfl, cbr_bitrate_args sampleWorld sampleSession rfl⟩

/-- C8. In variable-bitrate mode `startEncoding` calls the mode initializer
with maximum argument `max * 1000` when `max > 0` and -1 otherwise, nominal
argument `nominal * 1000`, and minimum argument `min * 1000` when `min > 0`
and -1 otherwise. -/
theorem vbr_bitrate_args (w : World) (s : Session)
    (hvbr : s.outputSettings.isVariableBitRate = true) :
    ∃ rest, (startEncoding w s).2.trace = s.trace ++
      [.vorbis_info_init,
       .vorbis_encode_setup_managed s.channels (min s.sampleRate 48000)
         (if 0 < s.outputSettings.maxBitrate then s.outputSettings.maxBitrate * 1000 else -1)
         (s.outputSettings.nominalBitrate * 1000)
         (if 0 < s.outputSettings.minBitrate then s.outputSettings.minBitrate * 1000 else -1)]
      ++ rest := by
  obtain ⟨rest, h⟩ := startEncoding_trace_begin w s
  refine ⟨rest, ?_⟩
  rw [h]
  simp [bitrateArgs, hvbr]

theorem vbr_bitrate_args_witness :
    nominalOnlySession.outputSettings.isVariableBitRate = true
      ∧ ∃ rest, (startEncoding sampleWorld nominalOnlySession).2.trace
        = nominalOnlySession.trace ++
          [.vorbis_info_init, .vorbis_encode_setup_managed 2 44100 (-1) 160000 (-1)] ++ rest :=
  ⟨rfl, vbr_bitrate_args sampleWorld nominalOnlySession rfl⟩

/-- C10. For a non-negative value `r` of the generator the serial number is
`0xD0000000 + r mod 0x0FFFFFFF`, lies between 0xD0000000 and 0xDFFFFFFE, and
so is neither 0 nor 0xFFFFFFFF. -/
theorem serialNo_range (r : Int) (h : 0 ≤ r) :
    serialNo r = 0xD0000000 + r % 0x0FFFFFFF
      ∧ 0xD0000000 ≤ serialNo r ∧ serialNo r ≤ 0xDFFFFFFE
      ∧ serialNo r ≠ 0 ∧ serialNo r ≠ 0xFFFFFFFF := by
  have h1 : 0 ≤ r % 0x0FFFFFFF := Int.emod_nonneg _ (by norm_num)
  have h2 : r % 0x0FFFFFFF < 0x0FFFFFFF := Int.emod_lt_of_pos _ (by norm_num)
  have h3 : serialNo r = 0xD0000000 + r % 0x0FFFFFFF := by
    unfold serialNo
    rw [Int.tmod_eq_emod h (by norm_num)]
    apply Int.emod_eq_of_lt <;> omega
  refine ⟨h3, ?_, ?_, ?_, ?_⟩ <;> omega

theorem serialNo_range_witness :
    (0 : Int) ≤ sampleWorld.qrand
      ∧ serialNo sampleWorld.qrand = 0xD0000000 + sampleWorld.qrand % 0x0FFFFFFF
      ∧ 0xD0000000 ≤ serialNo sampleWorld.qrand ∧ serialNo sampleWorld.qrand ≤ 0xDFFFFFFE
      ∧ serialNo sampleWorld.qrand ≠ 0 ∧ serialNo sampleWorld.qrand ≠ 0xFFFFFFFF :=
  ⟨by decide, serialNo_range sampleWorld.qrand (by decide)⟩

/-! ## Setup failure and teardown -/

theorem finishEncoding_not_ok (w : World) (s : Session) (h : s.m_ok = false) :
    finishEncoding w s = s := by
  unfold finishEncoding
  simp [h]

theorem startEncoding_setup_failed (w : World) (s : Session) (h : setupResult w s ≠ 0) :
    (startEncoding w s).1 = false
      ∧ (startEncoding w s).2.trace = s.trace ++
        [.vorbis_info_init,
         .vorbis_encode_setup_managed s.channels (min s.sampleRate 48000)
           (bitrateArgs s.outputSettings).1 (bitrateArgs s.outputSettings).2.1
           (bitrateArgs s.outputSettings).2.2,
         .printf "Mode initialization failed: invalid parameters for bitrate\n",
         .vorbis_info_clear] := by
  unfold setupResult at h
  unfold startEncoding
  by_cases hr : s.sampleRate > 48000
  · have hmin : min s.sampleRate 48000 = 48000 := min_eq_right (le_of_lt hr)
    rw [hmin] at h ⊢
    simp only [hr, if_true, setSampleRate, log]
    rw [if_pos h]
    simp
  · have hmin : min s.sampleRate 48000 = s.sampleRate := min_eq_left (not_lt.mp hr)
    rw [hmin] at h ⊢
    simp only [hr, if_false, log]
    rw [if_pos h]
    simp

/-- C9. When the mode initializer reports invalid parameters, `startEncoding`
returns false and its whole activity is: `vorbis_info_init`, the rejected
initializer call, the message, `vorbis_info_clear`.  No analysis engine, block
state or packet stream is initialised and nothing is written.  The constructor
then reports failure and leaves `m_ok` false, so `finishEncoding` changes
nothing. -/
theorem setup_failure_releases_info (w : World) (s : Session) (h : setupResult w s ≠ 0) :
    (startEncoding w s).1 = false
      ∧ (startEncoding w s).2.trace = s.trace ++
        [.vorbis_info_init,
         .vorbis_encode_setup_managed s.channels (min s.sampleRate 48000)
           (bitrateArgs s.outputSettings).1 (bitrateArgs s.outputSettings).2.1
           (bitrateArgs s.outputSettings).2.2,
         .printf "Mode initialization failed: invalid parameters for bitrate\n",
         .vorbis_info_clear]
      ∧ (AudioFileOgg w true s).1 = false
      ∧ (AudioFileOgg w true s).2.m_ok = false
      ∧ finishEncoding w (AudioFileOgg w true s).2 = (AudioFileOgg w true s).2 := by
  obtain ⟨h1, h2⟩ := startEncoding_setup_failed w s h
  have h3 : (AudioFileOgg w true s).1 = false := by
    simp [AudioFileOgg, h1]
  have h4 : (AudioFileOgg w true s).2.m_ok = false := by
    simp [AudioFileOgg, h1]
  exact ⟨h1, h2, h3, h4, finishEncoding_not_ok w _ h4⟩

theorem setup_failure_releases_info_witness :
    setupResult rejectingWorld sampleSession ≠ 0
      ∧ (startEncoding rejectingWorld sampleSession).1 = false
      ∧ (startEncoding rejectingWorld sampleSession).2.trace = sampleSession.trace ++
        [.vorbis_info_init,
         .vorbis_encode_setup_managed 2 44100 128000 128000 128000,
         .printf "Mode initialization failed: invalid parameters for bitrate\n",
         .vorbis_info_clear]
      ∧ (AudioFileOgg rejectingWorld true sampleSession).1 = false
      ∧ (AudioFileOgg rejectingWorld true sampleSession).2.m_ok = false
      ∧ finishEncoding rejectingWorld (AudioFileOgg rejectingWorld true sampleSession).2
        = (AudioFileOgg rejectingWorld true sampleSession).2 :=
  ⟨by decide, setup_failure_releases_info rejectingWorld sampleSession (by decide)⟩

/-- C4 (the code at the failing input). The file accepts no byte, so the write
of the first header page comes back short.  `startEncoding` returns false, but
the `finishEncoding` it calls finds `m_ok` not yet set and does nothing: the
trace ends with the two writes of that page and holds no release; the
destructor, run after the constructor has stored `m_ok = false`, adds nothing
either.  Had `m_ok` held true at that moment, `finishEncoding` would have run
`writeBuffer` first and attempted one more page write before releasing. -/
theorem header_write_failure_leaks :
    (startEncoding fullDiskWorld sampleSession).1 = false
      ∧ (startEncoding fullDiskWorld sampleSession).2.trace.drop 12
        = [.ogg_stream_flush (some samplePage), headerWrite samplePage, bodyWrite samplePage]
      ∧ ((startEncoding fullDiskWorld sampleSession).2.trace.filter Event.isRelease) = []
      ∧ (AudioFileOgg fullDiskWorld true sampleSession).1 = false
      ∧ ((destructor fullDiskWorld
          (AudioFileOgg fullDiskWorld true sampleSession).2).trace.filter Event.isRelease) = []
      ∧ (startEncoding fullDiskWorld { sampleSession with m_ok := true }).2.trace.drop 12
        = [.ogg_stream_flush (some samplePage), headerWrite samplePage, bodyWrite samplePage,
           .vorbis_analysis_buffer 0, .vorbis_analysis_wrote 0,
           .vorbis_analysis_blockout true, .vorbis_analysis, .vorbis_bitrate_addblock,
           .vorbis_bitrate_flushpacket (some (.m_op [5])), .ogg_stream_packetin (.m_op [5]),
           .ogg_stream_pageout (some lastPage), headerWrite lastPage, bodyWrite lastPage,
           .printf failMsg,
           .ogg_stream_clear, .vorbis_block_clear, .vorbis_dsp_clear, .vorbis_info_clear] := by
  decide

/-- C5, as stated, fails: on a successfully set up session the second
`finishEncoding` submits zero frames again and releases the four resources
again, so the two calls differ from one call and leave eight releases. -/
theorem second_finishEncoding_releases_again :
    readySession.m_ok = true
      ∧ finishEncoding sampleWorld (finishEncoding sampleWorld readySession)
        ≠ finishEncoding sampleWorld readySession
      ∧ ((finishEncoding sampleWorld readySession).trace.filter Event.isRelease).length = 4
      ∧ ((finishEncoding sampleWorld (finishEncoding sampleWorld readySession)).trace.filter
          Event.isRelease).length = 8
      ∧ ((finishEncoding sampleWorld (finishEncoding sampleWorld readySession)).trace.filter
          (fun e => e = .vorbis_analysis_wrote 0)).length = 2 := by
  decide

theorem finishEncoding_ok_trace (w : World) (s : Session) (h : s.m_ok = true) :
    (finishEncoding w s).m_ok = true
      ∧ ∃ ev, (finishEncoding w s).trace = s.trace ++
          ([.vorbis_analysis_buffer (0 * w.BYTES_PER_SAMPLE * s.channels),
            .vorbis_analysis_wrote 0] ++ ev ++ releases)
        ∧ ∀ e ∈ ev, e.isRelease = false := by
  have hc := config_finishEncoding w s
  have hok : (finishEncoding w s).m_ok = s.m_ok := congrArg (fun c => c.2.2.2.1) hc
  refine ⟨by rw [hok, h], ?_⟩
  unfold finishEncoding writeBuffer
  rw [if_pos h]
  obtain ⟨ev, hev, hp⟩ := extends_blockLoop w
    (w.drainScript (log (.vorbis_analysis_wrote 0)
      (log (.vorbis_analysis_buffer (0 * w.BYTES_PER_SAMPLE * s.channels)) s)).trace) false
    (log (.vorbis_analysis_wrote 0)
      (log (.vorbis_analysis_buffer (0 * w.BYTES_PER_SAMPLE * s.channels)) s))
  refine ⟨ev, ?_, ?_⟩
  · simp only [log] at hev ⊢
    rw [hev]
    simp [releases]
  · intro e he
    have h1 := hp e he
    cases e <;> simp_all [Event.isEncode, Event.isRelease]

/-- C5 (amended). `finishEncoding` leaves the readiness flag set, so on a
session whose setup succeeded two calls in succession each submit zero frames,
drain, and then release packet stream, block state, analysis engine and
encoder-info in that order: every resource is released twice. -/
theorem finishEncoding_twice (w : World) (s : Session) (h : s.m_ok = true) :
    (finishEncoding w s).m_ok = true
      ∧ ∃ ev1 ev2, (finishEncoding w (finishEncoding w s)).trace = s.trace ++
          ([.vorbis_analysis_buffer (0 * w.BYTES_PER_SAMPLE * s.channels),
            .vorbis_analysis_wrote 0] ++ ev1 ++ releases) ++
          ([.vorbis_analysis_buffer (0 * w.BYTES_PER_SAMPLE * s.channels),
            .vorbis_analysis_wrote 0] ++ ev2 ++ releases)
        ∧ (∀ e ∈ ev1, e.isRelease = false) ∧ (∀ e ∈ ev2, e.isRelease = false) := by
  obtain ⟨hok, ev1, h1, hp1⟩ := finishEncoding_ok_trace w s h
  obtain ⟨_, ev2, h2, hp2⟩ := finishEncoding_ok_trace w (finishEncoding w s) hok
  have hch : (finishEncoding w s).channels = s.channels :=
    congrArg (fun c => c.2.1) (config_finishEncoding w s)
  refine ⟨hok, ev1, ev2, ?_, hp1, hp2⟩
  rw [h2, h1, hch]

theorem finishEncoding_twice_witness :
    readySession.m_ok = true
      ∧ (finishEncoding sampleWorld readySession).m_ok = true
      ∧ ∃ ev1 ev2,
          (finishEncoding sampleWorld (finishEncoding sampleWorld readySession)).trace
            = readySession.trace ++
              ([.vorbis_analysis_buffer (0 * sampleWorld.BYTES_PER_SAMPLE * readySession.channels),
                .vorbis_analysis_wrote 0] ++ ev1 ++ releases) ++
              ([.vorbis_analysis_buffer (0 * sampleWorld.BYTES_PER_SAMPLE * readySession.channels),
                .vorbis_analysis_wrote 0] ++ ev2 ++ releases)
          ∧ (∀ e ∈ ev1, e.isRelease = false) ∧ (∀ e ∈ ev2, e.isRelease = false) :=
  ⟨by decide, finishEncoding_twice sampleWorld readySession (by decide)⟩

/-! ## Page writes of `writeBuffer` -/

theorem getElem?_append_add {α : Type} (l l1 : List α) (k : Nat) :
    (l ++ l1)[l.length + k]? = l1[k]? := by
  rw [List.getElem?_append_right (Nat.le_add_right _ _), Nat.add_sub_cancel_left]

theorem lt_length_of_getElem? {α : Type} {l : List α} {i : Nat} {a : α}
    (h : l[i]? = some a) : i < l.length := by
  obtain ⟨hlt, _⟩ := List.getElem?_eq_some.mp h
  exact hlt

theorem Completed.start (w : World) (tr : List Event) : Completed w tr.length tr := by
  refine ⟨le_refl _, ?_, by simp⟩
  intro i pg hi hget
  rw [List.getElem?_eq_none hi] at hget
  exact absurd hget (by simp)

theorem Completed.snoc {w : World} {n0 : Nat} {tr : List Event} (e : Event)
    (h : Completed w n0 tr) (hpo : ∀ pg, e ≠ .ogg_stream_pageout (some pg))
    (hmsg : e ≠ .printf failMsg) : Completed w n0 (tr ++ [e]) := by
  obtain ⟨hlen, hclean, hquiet⟩ := h
  refine ⟨by rw [List.length_append]; omega, ?_, ?_⟩
  · intro i pg hi hget
    by_cases hlt : i < tr.length
    · rw [List.getElem?_append_left hlt] at hget
      obtain ⟨h1, h2, h3⟩ := hclean i pg hi hget
      have hl2 := lt_length_of_getElem? h2
      rw [List.getElem?_append_left (by omega), List.getElem?_append_left hl2,
        List.take_append_of_le_length (by omega)]
      exact ⟨h1, h2, h3⟩
    · obtain ⟨k, rfl⟩ := Nat.exists_eq_add_of_le (not_lt.mp hlt)
      rw [getElem?_append_add] at hget
      rcases k with _ | k
      · simp at hget
        exact absurd hget (hpo pg)
      · simp at hget
  · rw [List.drop_append_of_le_length hlen, List.mem_append]
    rintro (hm | hm)
    · exact hquiet hm
    · simp at hm
      exact hmsg hm.symm

theorem Completed.page {w : World} {n0 : Nat} {tr : List Event} (pg : Page)
    (h : Completed w n0 tr)
    (hexact : pageTotal w (tr ++ [.ogg_stream_pageout (some pg)]) pg
      = pg.header_len + pg.body_len) :
    Completed w n0 (tr ++ [.ogg_stream_pageout (some pg), headerWrite pg, bodyWrite pg]) := by
  obtain ⟨hlen, hclean, hquiet⟩ := h
  refine ⟨by rw [List.length_append]; omega, ?_, ?_⟩
  · intro i pg1 hi hget
    by_cases hlt : i < tr.length
    · rw [List.getElem?_append_left hlt] at hget
      obtain ⟨h1, h2, h3⟩ := hclean i pg1 hi hget
      have hl2 := lt_length_of_getElem? h2
      rw [List.getElem?_append_left (by omega), List.getElem?_append_left hl2,
        List.take_append_of_le_length (by omega)]
      exact ⟨h1, h2, h3⟩
    · obtain ⟨k, rfl⟩ := Nat.exists_eq_add_of_le (not_lt.mp hlt)
      rw [getElem?_append_add] at hget
      rcases k with _ | _ | _ | k
      · simp at hget
        subst hget
        refine ⟨?_, ?_, ?_⟩
        · rw [Nat.add_assoc, getElem?_append_add]; rfl
        · rw [Nat.add_assoc, getElem?_append_add]; rfl
        · rw [Nat.add_assoc, List.take_append]
          exact hexact
      · simp [headerWrite] at hget
      · simp [bodyWrite] at hget
      · simp at hget
  · rw [List.drop_append_of_le_length hlen, List.mem_append]
    rintro (hm | hm)
    · exact hquiet hm
    · simp [headerWrite, bodyWrite] at hm

theorem writePage_fst (w : World) (s : Session) :
    (writePage w s).1 = pageTotal w s.trace s.m_og := rfl

theorem writePage_trace (w : World) (s : Session) :
    (writePage w s).2.trace = s.trace ++ [headerWrite s.m_og, bodyWrite s.m_og] := by
  simp [writePage, log, headerWrite, bodyWrite]

theorem writePage_m_og (w : World) (s : Session) : (writePage w s).2.m_og = s.m_og := rfl

theorem outcome_pageLoop (w : World) (n0 : Nat) (pages : List Page) (eos : Bool) (s : Session)
    (h : Completed w n0 s.trace) : Outcome w n0 (pageLoop w pages eos s) := by
  induction pages generalizing eos s with
  | nil =>
    cases eos
    · exact Completed.snoc (.ogg_stream_pageout none) h (by simp) (by simp)
    · exact h
  | cons pg rest ih =>
    cases eos
    · simp only [pageLoop, writePage_fst, writePage_m_og]
      have htr : (writePage w (log (.ogg_stream_pageout (some pg)) { s with m_og := pg })).2.trace
          = s.trace ++ [.ogg_stream_pageout (some pg), headerWrite pg, bodyWrite pg] := by
        rw [writePage_trace]
        simp [log]
      split
      · next hne =>
        refine ⟨s.trace, pg, ?_, h, hne⟩
        show (writePage w (log (.ogg_stream_pageout (some pg)) { s with m_og := pg })).2.trace
          ++ [.printf "failed writing to outstream\n"] = _
        rw [htr]
        simp [failMsg]
      · next hne =>
        apply ih
        rw [htr]
        exact Completed.page pg h (not_not.mp hne)
    · exact h

theorem outcome_packetLoop (w : World) (n0 : Nat) (block : BlockScript) (eos : Bool)
    (s : Session) (h : Completed w n0 s.trace) : Outcome w n0 (packetLoop w block eos s) := by
  induction block generalizing eos s with
  | nil => exact Completed.snoc (.vorbis_bitrate_flushpacket none) h (by simp) (by simp)
  | cons head rest ih =>
    obtain ⟨op, pages⟩ := head
    simp only [packetLoop]
    have h1 : Completed w n0
        (log (.ogg_stream_packetin op) (log (.vorbis_bitrate_flushpacket (some op)) s)).trace :=
      Completed.snoc (.ogg_stream_packetin op)
        (Completed.snoc (.vorbis_bitrate_flushpacket (some op)) h (by simp) (by simp))
        (by simp) (by simp)
    have h2 := outcome_pageLoop w n0 pages eos _ h1
    split
    · next s1 heq => rw [heq] at h2; exact h2
    · next eos1 s1 heq => rw [heq] at h2; exact ih _ _ h2

theorem outcome_blockLoop (w : World) (n0 : Nat) (blocks : List BlockScript) (eos : Bool)
    (s : Session) (h : Completed w n0 s.trace) : Outcome w n0 (blockLoop w blocks eos s) := by
  induction blocks generalizing eos s with
  | nil => exact Completed.snoc (.vorbis_analysis_blockout false) h (by simp) (by simp)
  | cons block rest ih =>
    simp only [blockLoop]
    have h1 : Completed w n0
        (log .vorbis_bitrate_addblock (log .vorbis_analysis
          (log (.vorbis_analysis_blockout true) s))).trace :=
      Completed.snoc .vorbis_bitrate_addblock
        (Completed.snoc .vorbis_analysis
          (Completed.snoc (.vorbis_analysis_blockout true) h (by simp) (by simp))
          (by simp) (by simp))
        (by simp) (by simp)
    have h2 := outcome_packetLoop w n0 block eos _ h1
    split
    · next s1 heq => rw [heq] at h2; exact h2
    · next eos1 s1 heq => rw [heq] at h2; exact ih _ _ h2

theorem writeBuffer_outcome (w : World) (n : Int) (s : Session) :
    Completed w s.trace.length (writeBuffer w n s).trace
      ∨ Aborted w s.trace.length (writeBuffer w n s).trace := by
  unfold writeBuffer
  have h1 : Completed w s.trace.length
      (log (.vorbis_analysis_wrote n)
        (log (.vorbis_analysis_buffer (n * w.BYTES_PER_SAMPLE * s.channels)) s)).trace :=
    Completed.snoc (.vorbis_analysis_wrote n)
      (Completed.snoc (.vorbis_analysis_buffer (n * w.BYTES_PER_SAMPLE * s.channels))
        (Completed.start w s.trace) (by simp) (by simp))
      (by simp) (by simp)
  have h2 := outcome_blockLoop w s.trace.length
    (w.drainScript (log (.vorbis_analysis_wrote n)
        (log (.vorbis_analysis_buffer (n * w.BYTES_PER_SAMPLE * s.channels)) s)).trace)
    false _ h1
  unfold Outcome at h2
  split at h2
  · exact Or.inl h2
  · exact Or.inr h2

/-- C6. In every `writeBuffer` call each page obtained from
`ogg_stream_pageout` is followed by the writes of its header and body; if the
total the file returned for it differs from `header_len + body_len`, the rest
of the call is exactly these two writes and the message: no further page is
requested, no packet or block drained, nothing written.  If every page write
of the call returns `header_len + body_len`, the message of the early return
is never printed. -/
theorem writeBuffer_short_write_halts (w : World) (n : Int) (s : Session) :
    (∀ i pg, s.trace.length ≤ i →
        (writeBuffer w n s).trace[i]? = some (.ogg_stream_pageout (some pg)) →
        (writeBuffer w n s).trace[i + 1]? = some (headerWrite pg)
          ∧ (writeBuffer w n s).trace[i + 2]? = some (bodyWrite pg)
          ∧ (pageTotal w ((writeBuffer w n s).trace.take (i + 1)) pg
                ≠ pg.header_len + pg.body_len →
              (writeBuffer w n s).trace.drop (i + 1)
                = [headerWrite pg, bodyWrite pg, .printf failMsg]))
      ∧ ((∀ i pg, s.trace.length ≤ i →
            (writeBuffer w n s).trace[i]? = some (.ogg_stream_pageout (some pg)) →
            pageTotal w ((writeBuffer w n s).trace.take (i + 1)) pg
              = pg.header_len + pg.body_len) →
          Event.printf failMsg ∉ (writeBuffer w n s).trace.drop s.trace.length) := by
  rcases writeBuffer_outcome w n s with hc | ha
  · obtain ⟨_, hclean, hquiet⟩ := hc
    refine ⟨?_, fun _ => hquiet⟩
    intro i pg hi hget
    obtain ⟨h1, h2, h3⟩ := hclean i pg hi hget
    exact ⟨h1, h2, fun hne => absurd h3 hne⟩
  · obtain ⟨pre, pg0, htr, ⟨hlen, hclean, _⟩, hne0⟩ := ha
    rw [htr]
    constructor
    · intro i pg hi hget
      by_cases hlt : i < pre.length
      · rw [List.getElem?_append_left hlt] at hget
        obtain ⟨h1, h2, h3⟩ := hclean i pg hi hget
        have hl2 := lt_length_of_getElem? h2
        rw [List.getElem?_append_left (by omega), List.getElem?_append_left hl2,
          List.take_append_of_le_length (by omega)]
        exact ⟨h1, h2, fun hne => absurd h3 hne⟩
      · obtain ⟨k, rfl⟩ := Nat.exists_eq_add_of_le (not_lt.mp hlt)
        rw [getElem?_append_add] at hget
        rcases k with _ | _ | _ | _ | k
        · simp at hget
          subst hget
          refine ⟨?_, ?_, fun _ => ?_⟩
          · rw [Nat.add_assoc, getElem?_append_add]; rfl
          · rw [Nat.add_assoc, getElem?_append_add]; rfl
          · rw [Nat.add_assoc, List.drop_append]; rfl
        · simp [headerWrite] at hget
        · simp [bodyWrite] at hget
        · simp at hget
        · simp at hget
    · intro hall
      have h := hall (pre.length + 0) pg0 (by omega) (by rw [getElem?_append_add]; rfl)
      rw [Nat.add_assoc, List.take_append] at h
      exact absurd h hne0

theorem writeBuffer_short_write_halts_witness :
    sampleSession.trace.length ≤ 10
      ∧ (writeBuffer busyWorld 512 sampleSession).trace[10]?
        = some (.ogg_stream_pageout (some samplePage))
      ∧ pageTotal busyWorld ((writeBuffer busyWorld 512 sampleSession).trace.take (10 + 1))
          samplePage ≠ samplePage.header_len + samplePage.body_len
      ∧ (writeBuffer busyWorld 512 sampleSession).trace.drop (10 + 1)
        = [headerWrite samplePage, bodyWrite samplePage, .printf failMsg] :=
  ⟨by decide, by decide, by decide,
    ((writeBuffer_short_write_halts busyWorld 512 sampleSession).1 10 samplePage
      (by decide) (by decide)).2.2 (by decide)⟩

/-! ## Header emission -/

theorem headerWrites_cons (pg : Page) (pages : List Page) :
    headerWrites (pg :: pages)
      = [.ogg_stream_flush (some pg), headerWrite pg, bodyWrite pg] ++ headerWrites pages := by
  simp [headerWrites]

theorem headerWrites_no_pageout (pages : List Page) :
    ∀ e ∈ headerWrites pages, e.isPageout = false := by
  induction pages with
  | nil => simp [headerWrites]
  | cons pg rest ih =>
    rw [headerWrites_cons]
    intro e he
    rcases List.mem_append.mp he with h | h
    · simp at h
      rcases h with h | h | h <;> subst h <;> rfl
    · exact ih e h

theorem flushLoop_trace (w : World) (pages : List Page) (s : Session) :
    ∃ k post, (flushLoop w pages s).2.trace = s.trace ++ headerWrites (pages.take k) ++ post
      ∧ ∀ e ∈ post, e.isFlush = true → e = .ogg_stream_flush none := by
  induction pages generalizing s with
  | nil =>
    refine ⟨0, [.ogg_stream_flush none], ?_, ?_⟩
    · simp [flushLoop, log, headerWrites]
    · intro e he _
      simpa using he
  | cons pg rest ih =>
    have htr : (writePage w (log (.ogg_stream_flush (some pg)) { s with m_og := pg })).2.trace
        = s.trace ++ [.ogg_stream_flush (some pg), headerWrite pg, bodyWrite pg] := by
      rw [writePage_trace]
      simp [log]
    simp only [flushLoop]
    split
    · obtain ⟨ev, hev, hp⟩ := extends_finishEncoding w
        (writePage w (log (.ogg_stream_flush (some pg)) { s with m_og := pg })).2
      refine ⟨1, ev, ?_, ?_⟩
      · rw [hev, htr]
        simp [headerWrites]
      · intro e he hflush
        have h1 := hp e he
        cases e <;> simp_all [Event.isEncode, Event.isRelease, Event.isFlush]
    · obtain ⟨k, post, hk, hpost⟩ := ih
        (writePage w (log (.ogg_stream_flush (some pg)) { s with m_og := pg })).2
      refine ⟨k + 1, post, ?_, hpost⟩
      rw [hk, htr, List.take_succ_cons, headerWrites_cons]
      simp only [List.append_assoc]

theorem exists_flush_state (w : World) (pages : List Page) (t0 : Session) (l : List Event)
    (hp : pages = w.flushScript t0.trace) (h : t0.trace = l) :
    ∃ t, flushLoop w pages t0 = flushLoop w (w.flushScript t.trace) t ∧ t.trace = l :=
  ⟨t0, by rw [hp], h⟩

theorem startEncoding_setup_ok (w : World) (s : Session) (h : setupResult w s = 0) :
    ∃ t, startEncoding w s = flushLoop w (w.flushScript t.trace) t
      ∧ t.trace = s.trace ++ setupEvents w s ++ headerPacketins := by
  unfold setupResult at h
  unfold startEncoding setupEvents headerPacketins
  by_cases hr : s.sampleRate > 48000
  · have hmin : min s.sampleRate 48000 = 48000 := min_eq_right (le_of_lt hr)
    rw [hmin] at h ⊢
    simp only [hr, if_true, setSampleRate, log]
    rw [if_neg (not_not.mpr h)]
    apply exists_flush_state
    · rfl
    · simp
  · have hmin : min s.sampleRate 48000 = s.sampleRate := min_eq_left (not_lt.mp hr)
    rw [hmin] at h ⊢
    simp only [hr, if_false, log]
    rw [if_neg (not_not.mpr h)]
    apply exists_flush_state
    · rfl
    · simp

/-- C3. When the mode initializer accepts the parameters, the trace of
`startEncoding` is: the setup calls (none of them a write, a page request or a
packet hand-in), then the packets identification, comments, codebook handed to
the packetizer in that order, then for a run of the pages `ogg_stream_flush`
returns, in the order it returns them, each page followed at once by the
writes of its header and body, then a remainder in which `ogg_stream_flush`
returns no further page.  Every request to `ogg_stream_pageout`, the only
source of data pages, lies in that remainder. -/
theorem startEncoding_header_order (w : World) (s : Session) (h : setupResult w s = 0) :
    ∃ k post,
      (startEncoding w s).2.trace = s.trace ++ setupEvents w s ++ headerPacketins
          ++ headerWrites
              ((w.flushScript (s.trace ++ setupEvents w s ++ headerPacketins)).take k)
          ++ post
        ∧ (∀ e ∈ setupEvents w s,
            e.isWrite = false ∧ e.isPageout = false ∧ e.isPacketin = false)
        ∧ (∀ e ∈ headerWrites
              ((w.flushScript (s.trace ++ setupEvents w s ++ headerPacketins)).take k),
            e.isPageout = false)
        ∧ (∀ e ∈ post, e.isFlush = true → e = .ogg_stream_flush none) := by
  obtain ⟨t, ht, htr⟩ := startEncoding_setup_ok w s h
  obtain ⟨k, post, hk, hpost⟩ := flushLoop_trace w (w.flushScript t.trace) t
  refine ⟨k, post, ?_, ?_, headerWrites_no_pageout _, hpost⟩
  · rw [ht, hk, htr]
  · intro e he
    simp only [setupEvents, List.mem_cons, List.mem_singleton, List.not_mem_nil, or_false] at he
    rcases he with h | h | h | h | h | h | h | h | h <;> subst h <;> exact ⟨rfl, rfl, rfl⟩

theorem startEncoding_header_order_witness :
    setupResult sampleWorld sampleSession = 0
      ∧ ∃ k post,
        (startEncoding sampleWorld sampleSession).2.trace
            = sampleSession.trace ++ setupEvents sampleWorld sampleSession ++ headerPacketins
              ++ headerWrites ((sampleWorld.flushScript
                  (sampleSession.trace ++ setupEvents sampleWorld sampleSession
                    ++ headerPacketins)).take k)
              ++ post
          ∧ (∀ e ∈ setupEvents sampleWorld sampleSession,
              e.isWrite = false ∧ e.isPageout = false ∧ e.isPacketin = false)
          ∧ (∀ e ∈ headerWrites ((sampleWorld.flushScript
                  (sampleSession.trace ++ setupEvents sampleWorld sampleSession
                    ++ headerPacketins)).take k),
              e.isPageout = false)
          ∧ (∀ e ∈ post, e.isFlush = true → e = .ogg_stream_flush none) :=
  ⟨by decide, startEncoding_header_order sampleWorld sampleSession (by decide)⟩

/-! ## End of stream in `writeBuffer` -/

theorem getElem?_append_lt {α : Type} {l l1 : List α} {i : Nat} {a : α}
    (h : (l ++ l1)[i]? = some a) (hlt : ¬ i < l.length) : a ∈ l1 := by
  rw [List.getElem?_append_right (not_lt.mp hlt)] at h
  exact List.getElem?_mem h

theorem noEos_append {n0 : Nat} {tr : List Event} (x : List Event)
    (h : NoEosBefore n0 tr.length tr)
    (hx : ∀ pg, Event.ogg_stream_pageout (some pg) ∈ x → pg.eos = false) :
    NoEosBefore n0 (tr ++ x).length (tr ++ x) := by
  intro i pg hi _ hget
  by_cases hlt : i < tr.length
  · rw [List.getElem?_append_left hlt] at hget
    exact h i pg hi hlt hget
  · exact hx pg (getElem?_append_lt hget hlt)

theorem noEos_of_append {n0 j : Nat} {tr x : List Event}
    (h : NoEosBefore n0 j (tr ++ x)) (hj : j ≤ tr.length) : NoEosBefore n0 j tr := by
  intro i pg hi hij hget
  apply h i pg hi hij
  rw [List.getElem?_append_left (by omega)]
  exact hget

theorem sealed_append {n0 : Nat} {tr : List Event} (x : List Event) (h : Sealed n0 tr)
    (hx : ∀ e ∈ x, e.isPageout = false ∧ e.isWrite = false) : Sealed n0 (tr ++ x) := by
  intro i pg hi hget heos j e hj hgetj
  by_cases hlt : i < tr.length
  · rw [List.getElem?_append_left hlt] at hget
    by_cases hjlt : j < tr.length
    · rw [List.getElem?_append_left hjlt] at hgetj
      exact h i pg hi hget heos j e hj hgetj
    · exact hx e (getElem?_append_lt hgetj hjlt)
  · have hmem := getElem?_append_lt hget hlt
    have := (hx _ hmem).1
    simp [Event.isPageout] at this

theorem sealed_page {n0 : Nat} {tr : List Event} (pg : Page) (tail : List Event)
    (h : NoEosBefore n0 tr.length tr)
    (ht : ∀ e ∈ tail, e.isPageout = false ∧ e.isWrite = false) :
    Sealed n0 (tr ++ ([.ogg_stream_pageout (some pg), headerWrite pg, bodyWrite pg] ++ tail)) := by
  intro i pg1 hi hget heos j e hj hgetj
  by_cases hlt : i < tr.length
  · rw [List.getElem?_append_left hlt] at hget
    have := h i pg1 hi hlt hget
    rw [heos] at this
    exact absurd this (by simp)
  · obtain ⟨k, rfl⟩ := Nat.exists_eq_add_of_le (not_lt.mp hlt)
    rw [getElem?_append_add] at hget
    obtain ⟨m, rfl⟩ := Nat.exists_eq_add_of_le hj
    rw [show tr.length + k + 3 + m = tr.length + (k + 3 + m) by omega,
      getElem?_append_add] at hgetj
    rw [show k + 3 + m = ([Event.ogg_stream_pageout (some pg), headerWrite pg,
      bodyWrite pg]).length + (k + m) by simp; omega, getElem?_append_add] at hgetj
    exact ht e (List.getElem?_mem hgetj)

theorem sealed_start (tr : List Event) : Sealed tr.length tr := by
  intro i pg hi hget
  rw [List.getElem?_eq_none hi] at hget
  exact absurd hget (by simp)

theorem eosSeen_append {n0 : Nat} {tr : List Event} (x : List Event) (h : EosSeen n0 tr) :
    EosSeen n0 (tr ++ x) := by
  obtain ⟨i, pg, hi, hget, heos⟩ := h
  exact ⟨i, pg, hi, by rw [List.getElem?_append_left (lt_length_of_getElem? hget)]; exact hget,
    heos⟩

theorem pageInv_start (tr : List Event) : PageInv tr.length false tr := by
  refine ⟨le_refl _, sealed_start tr, ?_, by simp⟩
  intro _ i pg hi hlt
  omega

theorem pageInv_snoc {n0 : Nat} {eos : Bool} {tr : List Event} (e : Event)
    (h : PageInv n0 eos tr) (he : e.isPageout = false ∧ e.isWrite = false) :
    PageInv n0 eos (tr ++ [e]) := by
  obtain ⟨hlen, hs, hno, hseen⟩ := h
  refine ⟨by rw [List.length_append]; omega, ?_, ?_, ?_⟩
  · exact sealed_append [e] hs (by simpa using he)
  · intro h0
    apply noEos_append [e] (hno h0)
    intro pg hmem
    simp at hmem
    rw [← hmem] at he
    simp [Event.isPageout] at he
  · intro h1
    exact eosSeen_append [e] (hseen h1)

theorem sealed_of_noEos {n0 : Nat} {tr : List Event} (h : NoEosBefore n0 tr.length tr) :
    Sealed n0 tr := by
  intro i pg hi hget heos
  have := h i pg hi (lt_length_of_getElem? hget) hget
  rw [heos] at this
  exact absurd this (by simp)

theorem pageInv_snoc_false {n0 : Nat} {tr : List Event} (e : Event)
    (h : PageInv n0 false tr) (he : ∀ pg, e = .ogg_stream_pageout (some pg) → pg.eos = false) :
    PageInv n0 false (tr ++ [e]) := by
  obtain ⟨hlen, _, hno, _⟩ := h
  have hno1 : NoEosBefore n0 (tr ++ [e]).length (tr ++ [e]) := by
    apply noEos_append [e] (hno rfl)
    intro pg hmem
    simp at hmem
    exact he pg hmem.symm
  exact ⟨by rw [List.length_append]; omega, sealed_of_noEos hno1, fun _ => hno1, by simp⟩

theorem pageInv_page {n0 : Nat} {tr : List Event} (pg : Page) (h : PageInv n0 false tr) :
    PageInv n0 (if pg.eos then true else false)
      (tr ++ [.ogg_stream_pageout (some pg), headerWrite pg, bodyWrite pg]) := by
  obtain ⟨hlen, _, hno, _⟩ := h
  refine ⟨by rw [List.length_append]; omega, ?_, ?_, ?_⟩
  · have := sealed_page pg [] (hno rfl) (by simp)
    simpa using this
  · intro h0
    have hf : pg.eos = false := by
      cases hpg : pg.eos <;> simp [hpg] at h0 ⊢
    apply noEos_append _ (hno rfl)
    intro pg1 hmem
    simp [headerWrite, bodyWrite] at hmem
    rw [hmem]
    exact hf
  · intro h1
    have ht : pg.eos = true := by
      cases hpg : pg.eos <;> simp [hpg] at h1 ⊢
    exact ⟨tr.length + 0, pg, by omega, by rw [getElem?_append_add]; rfl, ht⟩

theorem pageOutcome_pageLoop (w : World) (n0 : Nat) (pages : List Page) (eos : Bool)
    (s : Session) (h : PageInv n0 eos s.trace) : PageOutcome w n0 (pageLoop w pages eos s) := by
  induction pages generalizing eos s with
  | nil =>
    cases eos
    · exact pageInv_snoc_false (.ogg_stream_pageout none) h (by simp)
    · exact h
  | cons pg rest ih =>
    cases eos
    · simp only [pageLoop, writePage_fst, writePage_m_og]
      have htr : (writePage w (log (.ogg_stream_pageout (some pg)) { s with m_og := pg })).2.trace
          = s.trace ++ [.ogg_stream_pageout (some pg), headerWrite pg, bodyWrite pg] := by
        rw [writePage_trace]
        simp [log]
      split
      · next hne =>
        refine ⟨s.trace, pg, ?_, h.1, h.2.2.1 rfl, hne⟩
        show (writePage w (log (.ogg_stream_pageout (some pg)) { s with m_og := pg })).2.trace
          ++ [.printf "failed writing to outstream\n"] = _
        rw [htr]
        simp [failMsg]
      · apply ih
        rw [htr]
        exact pageInv_page pg h
    · exact h

theorem pageWrites_cons (pg : Page) (pages : List Page) :
    pageWrites (pg :: pages)
      = [.ogg_stream_pageout (some pg), headerWrite pg, bodyWrite pg] ++ pageWrites pages := by
  simp [pageWrites]

theorem pageWrites_no_packetin (pages : List Page) :
    ∀ e ∈ pageWrites pages, e.isPacketin = false := by
  induction pages with
  | nil => simp [pageWrites]
  | cons pg rest ih =>
    rw [pageWrites_cons]
    intro e he
    rcases List.mem_append.mp he with h | h
    · simp at h
      rcases h with h | h | h <;> subst h <;> rfl
    · exact ih e h

theorem pageLoop_eos (w : World) (pages : List Page) (s : Session) :
    pageLoop w pages true s = (some true, s) := by
  cases pages <;> rfl

theorem pageLoop_shape (w : World) (pages : List Page) (s : Session) :
    ∃ ps term, (pageLoop w pages false s).2.trace = s.trace ++ (pageWrites ps ++ term)
      ∧ (((pageLoop w pages false s).1 ≠ none
            ∧ (term = [.ogg_stream_pageout none]
                ∨ (term = [] ∧ ∃ pg, ps.getLast? = some pg ∧ pg.eos = true)))
          ∨ ((pageLoop w pages false s).1 = none ∧ ps ≠ [] ∧ term = [.printf failMsg])) := by
  induction pages generalizing s with
  | nil =>
    exact ⟨[], [.ogg_stream_pageout none], by simp [pageLoop, log, pageWrites],
      Or.inl ⟨by simp [pageLoop], Or.inl rfl⟩⟩
  | cons pg rest ih =>
    have htr : (writePage w (log (.ogg_stream_pageout (some pg)) { s with m_og := pg })).2.trace
        = s.trace ++ [.ogg_stream_pageout (some pg), headerWrite pg, bodyWrite pg] := by
      rw [writePage_trace]
      simp [log]
    simp only [pageLoop, writePage_fst, writePage_m_og]
    split
    · refine ⟨[pg], [.printf failMsg], ?_, Or.inr ⟨rfl, by simp, rfl⟩⟩
      show (writePage w (log (.ogg_stream_pageout (some pg)) { s with m_og := pg })).2.trace
        ++ [.printf "failed writing to outstream\n"] = _
      rw [htr]
      simp [failMsg, pageWrites]
    · by_cases hpg : (log (.ogg_stream_pageout (some pg)) { s with m_og := pg }).m_og.eos = true
      · rw [if_pos hpg, pageLoop_eos]
        refine ⟨[pg], [], ?_, Or.inl ⟨by simp, Or.inr ⟨rfl, pg, rfl, hpg⟩⟩⟩
        rw [htr]
        simp [pageWrites]
      · rw [if_neg hpg]
        obtain ⟨ps, term, hps, hcase⟩ := ih
          (writePage w (log (.ogg_stream_pageout (some pg)) { s with m_og := pg })).2
        refine ⟨pg :: ps, term, ?_, ?_⟩
        · rw [hps, htr, pageWrites_cons]
          simp only [List.append_assoc]
        · rcases hcase with ⟨hst, ha | ⟨ht, pg1, hlast, heos⟩⟩ | ⟨hst, hne, ht⟩
          · exact Or.inl ⟨hst, Or.inl ha⟩
          · refine Or.inl ⟨hst, Or.inr ⟨ht, pg1, ?_, heos⟩⟩
            rw [List.getLast?_cons, hlast]
            rfl
          · exact Or.inr ⟨hst, by simp, ht⟩

theorem drainedOK_append {tr : List Event} {j : Nat} (x : List Event)
    (h : DrainedOK tr j) (hj : j < tr.length) : DrainedOK (tr ++ x) j := by
  obtain ⟨pages, rest, hd, hc⟩ := h
  refine ⟨pages, rest ++ x, ?_, ?_⟩
  · rw [List.drop_append_of_le_length (by omega), hd, List.append_assoc]
  · rcases hc with ⟨rest1, h1⟩ | h2
    · exact Or.inl ⟨rest1 ++ x, by rw [h1]; rfl⟩
    · exact Or.inr h2

theorem drainedOK_drained {tr : List Event} {j : Nat} (h : DrainedOK tr j) : Drained tr j := by
  obtain ⟨pages, rest, hd, hc⟩ := h
  refine ⟨pages, rest, hd, ?_⟩
  rcases hc with h1 | h2
  · exact Or.inl h1
  · exact Or.inr (Or.inl h2)

theorem drains_extend (D : List Event → Nat → Prop) (n0 : Nat) (tr x : List Event)
    (hold : DrainsOK n0 tr)
    (hmono : ∀ j, j < tr.length → DrainedOK tr j → D (tr ++ x) j)
    (hnew : ∀ j op, tr.length ≤ j → (tr ++ x)[j]? = some (.ogg_stream_packetin op) →
      NoEosBefore n0 j (tr ++ x) → D (tr ++ x) j) :
    ∀ j op, n0 ≤ j → (tr ++ x)[j]? = some (.ogg_stream_packetin op) →
      NoEosBefore n0 j (tr ++ x) → D (tr ++ x) j := by
  intro j op hj hget hno
  by_cases hlt : j < tr.length
  · rw [List.getElem?_append_left hlt] at hget
    exact hmono j hlt (hold j op hj hget (noEos_of_append hno (by omega)))
  · exact hnew j op (not_lt.mp hlt) hget hno

theorem drainsOK_append {n0 : Nat} {tr : List Event} (x : List Event) (h : DrainsOK n0 tr)
    (hx : ∀ e ∈ x, e.isPacketin = false) : DrainsOK n0 (tr ++ x) := by
  apply drains_extend DrainedOK n0 tr x h (fun j hj hd => drainedOK_append x hd hj)
  intro j op hj hget _
  have := hx _ (getElem?_append_lt hget (by omega))
  simp [Event.isPacketin] at this

theorem drainsOK_start (tr : List Event) : DrainsOK tr.length tr := by
  intro j op hj hget
  rw [List.getElem?_eq_none hj] at hget
  exact absurd hget (by simp)

theorem drains_packet (D : List Event → Nat → Prop) (n0 : Nat) (tr ev : List Event)
    (op : Packet) (hold : DrainsOK n0 tr)
    (hmono : ∀ j, j < tr.length → DrainedOK tr j →
      D (tr ++ ([.vorbis_bitrate_flushpacket (some op), .ogg_stream_packetin op] ++ ev)) j)
    (hev : ∀ e ∈ ev, e.isPacketin = false)
    (hnew : NoEosBefore n0 (tr.length + 1)
        (tr ++ ([.vorbis_bitrate_flushpacket (some op), .ogg_stream_packetin op] ++ ev)) →
      D (tr ++ ([.vorbis_bitrate_flushpacket (some op), .ogg_stream_packetin op] ++ ev))
        (tr.length + 1)) :
    ∀ j op1, n0 ≤ j →
      (tr ++ ([.vorbis_bitrate_flushpacket (some op), .ogg_stream_packetin op] ++ ev))[j]?
        = some (.ogg_stream_packetin op1) →
      NoEosBefore n0 j
        (tr ++ ([.vorbis_bitrate_flushpacket (some op), .ogg_stream_packetin op] ++ ev)) →
      D (tr ++ ([.vorbis_bitrate_flushpacket (some op), .ogg_stream_packetin op] ++ ev)) j := by
  apply drains_extend D n0 tr _ hold hmono
  intro j op1 hj hget hno
  obtain ⟨k, rfl⟩ := Nat.exists_eq_add_of_le hj
  rw [getElem?_append_add] at hget
  rcases k with _ | _ | k
  · simp at hget
  · exact hnew hno
  · rw [show k + 1 + 1 = ([Event.vorbis_bitrate_flushpacket (some op),
      Event.ogg_stream_packetin op]).length + k by simp; omega, getElem?_append_add] at hget
    have := hev _ (List.getElem?_mem hget)
    simp [Event.isPacketin] at this

theorem drop_after_packet (tr ev : List Event) (a b : Event) :
    (tr ++ ([a, b] ++ ev)).drop (tr.length + 1 + 1) = ev := by
  rw [Nat.add_assoc, List.drop_append]
  rfl

theorem drainsOK_after_packet (n0 : Nat) (tr : List Event) (op : Packet) (ps : List Page)
    (term : List Event) (hold : DrainsOK n0 tr)
    (hc : term = [.ogg_stream_pageout none]
      ∨ (term = [] ∧ ∃ pg, ps.getLast? = some pg ∧ pg.eos = true)) :
    DrainsOK n0 (tr ++ ([.vorbis_bitrate_flushpacket (some op), .ogg_stream_packetin op]
      ++ (pageWrites ps ++ term))) := by
  apply drains_packet DrainedOK n0 tr _ op hold (fun j hj hd => drainedOK_append _ hd hj)
  · intro e he
    rcases List.mem_append.mp he with h | h
    · exact pageWrites_no_packetin ps e h
    · rcases hc with h1 | ⟨h1, _⟩
      · rw [h1] at h
        simp at h
        subst h
        rfl
      · rw [h1] at h
        simp at h
  · intro _
    refine ⟨ps, term, drop_after_packet tr _ _ _, ?_⟩
    rcases hc with h1 | ⟨_, h2⟩
    · exact Or.inl ⟨[], h1⟩
    · exact Or.inr h2

theorem drains_after_short_write (n0 : Nat) (tr : List Event) (op : Packet) (ps : List Page)
    (hold : DrainsOK n0 tr) (hne : ps ≠ []) :
    Drains n0 (tr ++ ([.vorbis_bitrate_flushpacket (some op), .ogg_stream_packetin op]
      ++ (pageWrites ps ++ [.printf failMsg]))) := by
  apply drains_packet Drained n0 tr _ op hold
    (fun j hj hd => drainedOK_drained (drainedOK_append _ hd hj))
  · intro e he
    rcases List.mem_append.mp he with h | h
    · exact pageWrites_no_packetin ps e h
    · simp at h
      subst h
      rfl
  · intro _
    exact ⟨ps, [.printf failMsg], drop_after_packet tr _ _ _, Or.inr (Or.inr ⟨hne, rfl⟩)⟩

theorem drainsOK_after_eos (n0 : Nat) (tr : List Event) (op : Packet) (hold : DrainsOK n0 tr)
    (hseen : EosSeen n0 tr) :
    DrainsOK n0 (tr ++ ([.vorbis_bitrate_flushpacket (some op), .ogg_stream_packetin op]
      ++ [])) := by
  apply drains_packet DrainedOK n0 tr _ op hold (fun j hj hd => drainedOK_append _ hd hj)
  · simp
  · intro hno
    obtain ⟨i, pg, hi, hget, heos⟩ := hseen
    have hlt := lt_length_of_getElem? hget
    have := hno i pg hi (by omega) (by rw [List.getElem?_append_left hlt]; exact hget)
    rw [heos] at this
    exact absurd this (by simp)

theorem eosOutcome_packetLoop (w : World) (n0 : Nat) (block : BlockScript) (eos : Bool)
    (s : Session) (h : PageInv n0 eos s.trace) (hd : DrainsOK n0 s.trace) :
    EosOutcome w n0 (packetLoop w block eos s) := by
  induction block generalizing eos s with
  | nil =>
    exact ⟨pageInv_snoc (.vorbis_bitrate_flushpacket none) h ⟨rfl, rfl⟩,
      drainsOK_append [.vorbis_bitrate_flushpacket none] hd (by simp [Event.isPacketin])⟩
  | cons head rest ih =>
    obtain ⟨op, pages⟩ := head
    have hs1 : (log (.ogg_stream_packetin op)
        (log (.vorbis_bitrate_flushpacket (some op)) s)).trace
        = s.trace ++ [.vorbis_bitrate_flushpacket (some op), .ogg_stream_packetin op] := by
      simp [log]
    have h1 : PageInv n0 eos (log (.ogg_stream_packetin op)
        (log (.vorbis_bitrate_flushpacket (some op)) s)).trace :=
      pageInv_snoc (.ogg_stream_packetin op)
        (pageInv_snoc (.vorbis_bitrate_flushpacket (some op)) h ⟨rfl, rfl⟩) ⟨rfl, rfl⟩
    have hpo := pageOutcome_pageLoop w n0 pages eos _ h1
    cases eos
    · obtain ⟨ps, term, htr, hcase⟩ := pageLoop_shape w pages
        (log (.ogg_stream_packetin op) (log (.vorbis_bitrate_flushpacket (some op)) s))
      rw [hs1, List.append_assoc] at htr
      simp only [packetLoop]
      split
      · next s2 heq =>
        rw [heq] at hpo htr hcase
        rcases hcase with ⟨hst, _⟩ | ⟨_, hne, ht⟩
        · exact absurd rfl hst
        · refine ⟨hpo, ?_⟩
          show Drains n0 s2.trace
          have htr2 : s2.trace = _ := htr
          rw [htr2, ht]
          exact drains_after_short_write n0 s.trace op ps hd hne
      · next eos1 s2 heq =>
        rw [heq] at hpo htr hcase
        rcases hcase with ⟨_, hc⟩ | ⟨hst, _⟩
        · apply ih eos1 s2 hpo
          have htr2 : s2.trace = _ := htr
          rw [htr2]
          exact drainsOK_after_packet n0 s.trace op ps term hd hc
        · exact absurd hst (by simp)
    · simp only [packetLoop, pageLoop_eos]
      apply ih true _ h1
      rw [hs1]
      have := drainsOK_after_eos n0 s.trace op hd (h.2.2.2 rfl)
      simpa using this

theorem eosOutcome_blockLoop (w : World) (n0 : Nat) (blocks : List BlockScript) (eos : Bool)
    (s : Session) (h : PageInv n0 eos s.trace) (hd : DrainsOK n0 s.trace) :
    EosOutcome w n0 (blockLoop w blocks eos s) := by
  induction blocks generalizing eos s with
  | nil =>
    exact ⟨pageInv_snoc (.vorbis_analysis_blockout false) h ⟨rfl, rfl⟩,
      drainsOK_append [.vorbis_analysis_blockout false] hd (by simp [Event.isPacketin])⟩
  | cons block rest ih =>
    simp only [blockLoop]
    have h1 : PageInv n0 eos
        (log .vorbis_bitrate_addblock (log .vorbis_analysis
          (log (.vorbis_analysis_blockout true) s))).trace :=
      pageInv_snoc .vorbis_bitrate_addblock
        (pageInv_snoc .vorbis_analysis
          (pageInv_snoc (.vorbis_analysis_blockout true) h ⟨rfl, rfl⟩) ⟨rfl, rfl⟩) ⟨rfl, rfl⟩
    have hd1 : DrainsOK n0
        (log .vorbis_bitrate_addblock (log .vorbis_analysis
          (log (.vorbis_analysis_blockout true) s))).trace :=
      drainsOK_append [.vorbis_bitrate_addblock]
        (drainsOK_append [.vorbis_analysis]
          (drainsOK_append [.vorbis_analysis_blockout true] hd (by simp [Event.isPacketin]))
          (by simp [Event.isPacketin])) (by simp [Event.isPacketin])
    have h2 := eosOutcome_packetLoop w n0 block eos _ h1 hd1
    split
    · next s1 heq => rw [heq] at h2; exact h2
    · next eos1 s1 heq => rw [heq] at h2; exact ih _ _ h2.1 h2.2

theorem writeBuffer_eosOutcome (w : World) (n : Int) (s : Session) :
    EosOutcome w s.trace.length (writeBufferEos w n s, writeBuffer w n s) := by
  have h1 : PageInv s.trace.length false
      (log (.vorbis_analysis_wrote n)
        (log (.vorbis_analysis_buffer (n * w.BYTES_PER_SAMPLE * s.channels)) s)).trace :=
    pageInv_snoc (.vorbis_analysis_wrote n)
      (pageInv_snoc (.vorbis_analysis_buffer (n * w.BYTES_PER_SAMPLE * s.channels))
        (pageInv_start s.trace) ⟨rfl, rfl⟩) ⟨rfl, rfl⟩
  have hd1 : DrainsOK s.trace.length
      (log (.vorbis_analysis_wrote n)
        (log (.vorbis_analysis_buffer (n * w.BYTES_PER_SAMPLE * s.channels)) s)).trace :=
    drainsOK_append [.vorbis_analysis_wrote n]
      (drainsOK_append [.vorbis_analysis_buffer (n * w.BYTES_PER_SAMPLE * s.channels)]
        (drainsOK_start s.trace) (by simp [Event.isPacketin])) (by simp [Event.isPacketin])
  exact eosOutcome_blockLoop w s.trace.length _ false _ h1 hd1

/-- C11, as stated, fails when a page write comes back short before any
end-of-stream page: after the packet handed in at position 6 two pages are
drained, the second write is short, and the call ends on the message; the
multiplexer is never seen to report that no page is available. -/
theorem short_write_ends_draining :
    (writeBuffer busyWorld 512 sampleSession).trace[6]?
        = some (.ogg_stream_packetin (.m_op [5]))
      ∧ (writeBuffer busyWorld 512 sampleSession).trace.drop 7
        = [.ogg_stream_pageout (some samplePage), headerWrite samplePage, bodyWrite samplePage,
           .ogg_stream_pageout (some samplePage), headerWrite samplePage, bodyWrite samplePage,
           .printf failMsg]
      ∧ samplePage.eos = false
      ∧ Event.ogg_stream_pageout none ∉ (writeBuffer busyWorld 512 sampleSession).trace := by
  decide

/-- C11 (amended). In every `writeBuffer` call, after a page carrying the
end-of-stream flag has been obtained and its header and body written, the rest
of the call holds no request to `ogg_stream_pageout` and no write, whatever
packets are still drained and handed in; if that page's write returned
`header_len + body_len`, the local `eos` is set when the loops are left.
Before any end-of-stream page, each packet handed in is followed by a run of
pages, each obtained and written at once, that ends when the multiplexer
reports none available, or with a page carrying the end-of-stream flag, or
with the message of the early return after a short write. -/
theorem writeBuffer_end_of_stream (w : World) (n : Int) (s : Session) :
    (∀ i pg, s.trace.length ≤ i →
        (writeBuffer w n s).trace[i]? = some (.ogg_stream_pageout (some pg)) →
        pg.eos = true →
        (∀ j e, i + 3 ≤ j → (writeBuffer w n s).trace[j]? = some e →
            e.isPageout = false ∧ e.isWrite = false)
          ∧ (pageTotal w ((writeBuffer w n s).trace.take (i + 1)) pg
                = pg.header_len + pg.body_len →
              writeBufferEos w n s = some true))
      ∧ (∀ j op, s.trace.length ≤ j →
          (writeBuffer w n s).trace[j]? = some (.ogg_stream_packetin op) →
          NoEosBefore s.trace.length j (writeBuffer w n s).trace →
          Drained (writeBuffer w n s).trace j) := by
  have hout := writeBuffer_eosOutcome w n s
  unfold EosOutcome at hout
  cases hst : writeBufferEos w n s with
  | none =>
    rw [hst] at hout
    obtain ⟨⟨pre, pg0, htr, hlen, hno, hne⟩, hdr⟩ := hout
    have htr2 : (writeBuffer w n s).trace = pre ++ ([.ogg_stream_pageout (some pg0),
        headerWrite pg0, bodyWrite pg0] ++ [.printf failMsg]) := htr
    refine ⟨?_, hdr⟩
    intro i pg hi hget heos
    refine ⟨?_, ?_⟩
    · rw [htr2] at hget ⊢
      exact sealed_page pg0 [.printf failMsg] hno (by simp [Event.isPageout, Event.isWrite])
        i pg hi hget heos
    · intro hexact
      rw [htr2] at hget hexact
      by_cases hlt : i < pre.length
      · rw [List.getElem?_append_left hlt] at hget
        have := hno i pg hi hlt hget
        rw [heos] at this
        exact absurd this (by simp)
      · obtain ⟨k, rfl⟩ := Nat.exists_eq_add_of_le (not_lt.mp hlt)
        rw [getElem?_append_add] at hget
        rcases k with _ | _ | _ | _ | k
        · simp at hget
          subst hget
          rw [Nat.add_assoc, List.take_append] at hexact
          exact absurd hexact hne
        · simp [headerWrite] at hget
        · simp [bodyWrite] at hget
        · simp at hget
        · simp at hget
  | some eos =>
    rw [hst] at hout
    obtain ⟨⟨_, hsealed, hnoeos, _⟩, hdr⟩ := hout
    refine ⟨?_, fun j op hj hget hno => drainedOK_drained (hdr j op hj hget hno)⟩
    intro i pg hi hget heos
    refine ⟨hsealed i pg hi hget heos, fun _ => ?_⟩
    cases eos
    · have := hnoeos rfl i pg hi (lt_length_of_getElem? hget) hget
      rw [heos] at this
      exact absurd this (by simp)
    · rfl

theorem writeBuffer_end_of_stream_witness :
    sampleSession.trace.length ≤ 7
      ∧ (writeBuffer eosWorld 512 sampleSession).trace[7]?
        = some (.ogg_stream_pageout (some lastPage))
      ∧ lastPage.eos = true
      ∧ pageTotal eosWorld ((writeBuffer eosWorld 512 sampleSession).trace.take (7 + 1)) lastPage
        = lastPage.header_len + lastPage.body_len
      ∧ (writeBuffer eosWorld 512 sampleSession).trace[11]?
        = some (.ogg_stream_packetin (.m_op [6]))
      ∧ (writeBuffer eosWorld 512 sampleSession).trace.length = 20
      ∧ (∀ j e, 7 + 3 ≤ j → (writeBuffer eosWorld 512 sampleSession).trace[j]? = some e →
          e.isPageout = false ∧ e.isWrite = false)
      ∧ writeBufferEos eosWorld 512 sampleSession = some true :=
  ⟨by decide, by decide, by decide, by decide, by decide, by decide,
    ((writeBuffer_end_of_stream eosWorld 512 sampleSession).1 7 lastPage
      (by decide) (by decide) (by decide)).1,
    ((writeBuffer_end_of_stream eosWorld 512 sampleSession).1 7 lastPage
      (by decide) (by decide) (by decide)).2 (by decide)⟩

end AudioFileOgg
